import Mathlib

/-!
Shallow embedding of the chess engine's core (crates `chess_core` and
`chess_agents`) in Lean 4, together with proofs about the embedded code.

Conventions used throughout:
* Rust `u8`/`u16`/`u32`/`u64`/`usize` values are modelled as `Nat`; wherever an
  operation can overflow a 64-bit word the reduction `% 2^64` is written
  explicitly.  Rust `i8`/`i32` values are modelled as `Int`.
* `std::time::Duration` values are modelled as `Nat` counting milliseconds
  (every `Duration` the engine builds comes from `Duration::from_millis`).
* Code that can panic (`expect`, `unwrap`, integer division by zero) is
  modelled in the `Option` monad: `none` is the panic.
* The mailbox array `squares: [Option<Piece>; 64]` of `Board` is modelled as a
  single natural number of 64 base-16 digits: digit `i` is the content of
  square `i`, encoded by `pieceCode` and decoded by `decodePiece` (the two are
  mutually inverse, see `decodePiece_pieceCode`).  Array reads and writes
  become nibble extraction and replacement.
* A Rust array indexed by an enum (`[[BitBoard; 6]; 2]`, `[BitBoard; 2]`) is
  modelled as a `List` read at the enum's discriminant.
* Several perft-scale facts below are settled by kernel evaluation, so the
  definitions they reach are written for fast kernel reduction: arithmetic is
  spelled with the underlying kernel functions (`Nat.add`, `Nat.mul`,
  `Nat.land`, ...) which are definitionally the standard operators but avoid
  type-class unfolding; comparisons produce `Bool` (`Nat.beq`, `Nat.blt`,
  `bif`), matching the Rust operators, which produce `bool`; equality of
  fieldless enums compares discriminants, exactly as Rust's derived
  `PartialEq` does; and loops are spelled as `Nat.rec`/`List.rec` folds, which
  the kernel steps through far faster than the equation compiler's `brecOn`
  encoding.  Signed literal offsets are written in constructor form
  (`Int.negSucc 0` is `-1`) so that matching on them costs nothing.
-/

set_option maxRecDepth 8000

namespace Chess

/-- Chess player color (`types.rs`). -/
inductive Color where
  | White
  | Black
deriving DecidableEq, BEq, Repr

/-- The opposite color (`Color::opponent`). -/
def Color.opponent : Color → Color
  | Color.White => Color.Black
  | Color.Black => Color.White

/-- Discriminant of the `Color` enum, as used by `as usize` casts. -/
def Color.toIdx : Color → Nat
  | Color.White => 0
  | Color.Black => 1

/-- Equality of colors as the derived `PartialEq` compares fieldless enums:
by discriminant. -/
def Color.beq (a b : Color) : Bool := Nat.beq a.toIdx b.toIdx

/-- Chess piece types (`types.rs`). -/
inductive PieceType where
  | Pawn
  | Knight
  | Bishop
  | Rook
  | Queen
  | King
deriving DecidableEq, BEq, Repr

/-- Material value in centipawns (`PieceType::value`). -/
def PieceType.value : PieceType → Nat
  | PieceType.Pawn => 100
  | PieceType.Knight => 320
  | PieceType.Bishop => 330
  | PieceType.Rook => 500
  | PieceType.Queen => 900
  | PieceType.King => 0

/-- Discriminant of the `PieceType` enum. -/
def PieceType.toIdx : PieceType → Nat
  | PieceType.Pawn => 0
  | PieceType.Knight => 1
  | PieceType.Bishop => 2
  | PieceType.Rook => 3
  | PieceType.Queen => 4
  | PieceType.King => 5

/-- Equality of piece types by discriminant (Rust's derived `PartialEq`). -/
def PieceType.beq (a b : PieceType) : Bool := Nat.beq a.toIdx b.toIdx

/-- Chess piece with type and color (`types.rs`). -/
structure Piece where
  piece_type : PieceType
  color : Color
deriving DecidableEq, BEq, Repr

/-- `Piece::new`. -/
def Piece.new (piece_type : PieceType) (color : Color) : Piece :=
  ⟨piece_type, color⟩

/-- Board file, `File(u8)` with value 0..7. -/
structure File where
  val : Nat
deriving DecidableEq, BEq, Repr

/-- `File::new`: builds a file from an index, `none` when out of range. -/
def File.new (index : Nat) : Option File :=
  bif index.blt 8 then some ⟨index⟩ else none

/-- `File::index`. -/
def File.index (f : File) : Nat := f.val

/-- The nonnegative case of `File::offset`: adds `d` and checks the bound. -/
def File.offUp (f : File) (d : Nat) : Option File :=
  bif (Nat.add f.val d).blt 8 then some ⟨Nat.add f.val d⟩ else none

/-- The negative case of `File::offset`: subtracts `d + 1` if possible. -/
def File.offDown (f : File) (d : Nat) : Option File :=
  bif (Nat.add d 1).ble f.val then some ⟨Nat.sub f.val (Nat.add d 1)⟩ else none

/-- `File::offset`: shifted file, `none` when `self.0 as i8 + delta` leaves
0..7.  The signed addition and range test are computed by cases on the sign of
`delta` so that only `Nat` arithmetic is involved. -/
def File.offset (f : File) (delta : Int) : Option File :=
  match delta with
  | Int.ofNat d => f.offUp d
  | Int.negSucc d => f.offDown d

/-- Board rank, `Rank(u8)` with value 0..7. -/
structure Rank where
  val : Nat
deriving DecidableEq, BEq, Repr

/-- `Rank::new`. -/
def Rank.new (index : Nat) : Option Rank :=
  bif index.blt 8 then some ⟨index⟩ else none

/-- `Rank::index`. -/
def Rank.index (r : Rank) : Nat := r.val

/-- The nonnegative case of `Rank::offset`. -/
def Rank.offUp (r : Rank) (d : Nat) : Option Rank :=
  bif (Nat.add r.val d).blt 8 then some ⟨Nat.add r.val d⟩ else none

/-- The negative case of `Rank::offset`. -/
def Rank.offDown (r : Rank) (d : Nat) : Option Rank :=
  bif (Nat.add d 1).ble r.val then some ⟨Nat.sub r.val (Nat.add d 1)⟩ else none

/-- `Rank::offset`, computed like `File.offset`. -/
def Rank.offset (r : Rank) (delta : Int) : Option Rank :=
  match delta with
  | Int.ofNat d => r.offUp d
  | Int.negSucc d => r.offDown d

/-- Board square, `Square(u8)` with value 0..63 (`rank*8 + file`). -/
structure Square where
  val : Nat
deriving DecidableEq, BEq, Repr

/-- `Square::new` from file and rank. -/
def Square.new (file : File) (rank : Rank) : Square :=
  ⟨Nat.add (Nat.mul rank.val 8) file.val⟩

/-- `Square::from_index`: `none` when the index is not 0..63. -/
def Square.from_index (index : Nat) : Option Square :=
  bif index.blt 64 then some ⟨index⟩ else none

/-- `Square::file`. -/
def Square.file (s : Square) : File := ⟨Nat.mod s.val 8⟩

/-- `Square::rank`. -/
def Square.rank (s : Square) : Rank := ⟨Nat.div s.val 8⟩

/-- `Square::index`. -/
def Square.index (s : Square) : Nat := s.val

/-- Equality of squares (derived `PartialEq` on the wrapped `u8`). -/
def Square.beq (a b : Square) : Bool := Nat.beq a.val b.val

/-- `Square::distance`: Chebyshev distance. -/
def Square.distance (s other : Square) : Nat :=
  let file_diff :=
    bif (other.file.val).blt s.file.val then Nat.sub s.file.val other.file.val
    else Nat.sub other.file.val s.file.val
  let rank_diff :=
    bif (other.rank.val).blt s.rank.val then Nat.sub s.rank.val other.rank.val
    else Nat.sub other.rank.val s.rank.val
  bif rank_diff.blt file_diff then file_diff else rank_diff

/-- Castling rights for one color (`SideCastlingRights`). -/
structure SideCastlingRights where
  kingside : Bool
  queenside : Bool
deriving DecidableEq, Repr

/-- `SideCastlingRights::both`. -/
def SideCastlingRights.both : SideCastlingRights := ⟨true, true⟩

/-- `SideCastlingRights::none`. -/
def SideCastlingRights.none : SideCastlingRights := ⟨false, false⟩

/-- `SideCastlingRights::any`. -/
def SideCastlingRights.any (s : SideCastlingRights) : Bool :=
  s.kingside || s.queenside

/-- Complete castling rights for both colors (`CastlingRights`). -/
structure CastlingRights where
  white : SideCastlingRights
  black : SideCastlingRights
deriving DecidableEq, Repr

/-- `CastlingRights::all`. -/
def CastlingRights.all : CastlingRights :=
  ⟨SideCastlingRights.both, SideCastlingRights.both⟩

/-- `CastlingRights::none`. -/
def CastlingRights.none : CastlingRights :=
  ⟨SideCastlingRights.none, SideCastlingRights.none⟩

/-- `CastlingRights::get`. -/
def CastlingRights.get (c : CastlingRights) : Color → SideCastlingRights
  | Color.White => c.white
  | Color.Black => c.black

/-- `CastlingRights::update_after_move`: clears rights from move endpoints. -/
def CastlingRights.update_after_move (c : CastlingRights) (mfrom mto : Square) :
    CastlingRights :=
  let rights := c
  let rights :=
    bif (mfrom.index).beq 4 then { rights with white := SideCastlingRights.none }
    else bif (mfrom.index).beq 60 then { rights with black := SideCastlingRights.none }
    else rights
  let rights :=
    bif (mfrom.index).beq 0 then { rights with white := { rights.white with queenside := false } }
    else bif (mfrom.index).beq 7 then { rights with white := { rights.white with kingside := false } }
    else bif (mfrom.index).beq 56 then { rights with black := { rights.black with queenside := false } }
    else bif (mfrom.index).beq 63 then { rights with black := { rights.black with kingside := false } }
    else rights
  let rights :=
    bif (mto.index).beq 0 then { rights with white := { rights.white with queenside := false } }
    else bif (mto.index).beq 7 then { rights with white := { rights.white with kingside := false } }
    else bif (mto.index).beq 56 then { rights with black := { rights.black with queenside := false } }
    else bif (mto.index).beq 63 then { rights with black := { rights.black with kingside := false } }
    else rights
  rights

/-- Pawn starting rank for a color (`Color::pawn_rank`). -/
def Color.pawn_rank : Color → Rank
  | Color.White => ⟨1⟩
  | Color.Black => ⟨6⟩

/-- Pawn promotion rank for a color (`Color::promotion_rank`). -/
def Color.promotion_rank : Color → Rank
  | Color.White => ⟨7⟩
  | Color.Black => ⟨0⟩

/-- Pawn movement direction (`Color::pawn_direction`). -/
def Color.pawn_direction : Color → Int
  | Color.White => Int.ofNat 1
  | Color.Black => Int.negSucc 0

/-- Chess move: source, destination and optional promotion (`Move`). -/
structure Move where
  from' : Square
  to' : Square
  promotion : Option PieceType
deriving DecidableEq, Repr

/-- `Move::new`. -/
def Move.new (mfrom mto : Square) : Move := ⟨mfrom, mto, none⟩

/-- `Move::new_promotion`. -/
def Move.new_promotion (mfrom mto : Square) (promotion : PieceType) : Move :=
  ⟨mfrom, mto, some promotion⟩

/-- `Move::is_promotion`. -/
def Move.is_promotion (m : Move) : Bool := m.promotion.isSome

/-- A bitboard is a 64-bit set of squares; modelled as a `Nat` below `2^64`. -/
abbrev BitBoard := Nat

/-- The 64-bit all-ones mask (`2^64 - 1`), used for the `u64` complement. -/
def u64Mask : Nat := 0xFFFFFFFFFFFFFFFF

/-- `BitBoard::EMPTY`. -/
def BitBoard.EMPTY : BitBoard := (0 : Nat)

/-- `BitBoard::from_square`: `1u64 << square`. -/
def BitBoard.from_square (s : Square) : BitBoard := Nat.shiftLeft 1 s.val

/-- `BitBoard::contains`. -/
def BitBoard.contains (b : BitBoard) (s : Square) : Bool :=
  !(Nat.land b (Nat.shiftLeft 1 s.val)).beq 0

/-- `BitBoard::set`. -/
def BitBoard.set (b : BitBoard) (s : Square) : BitBoard :=
  Nat.lor b (Nat.shiftLeft 1 s.val)

/-- `BitBoard::is_empty`. -/
def BitBoard.is_empty (b : BitBoard) : Bool := Nat.beq b 0

/-- `BitBoard::union`. -/
def BitBoard.union (b other : BitBoard) : BitBoard := Nat.lor b other

/-- `BitBoard::intersection`. -/
def BitBoard.intersection (b other : BitBoard) : BitBoard := Nat.land b other

/-- `BitBoard::complement`: `!self.0` on a `u64`. -/
def BitBoard.complement (b : BitBoard) : BitBoard := Nat.xor b u64Mask

/-- `u64::trailing_zeros` for a nonzero word, by fuel recursion (64 is enough
fuel for any `u64`). -/
def trailingZerosAux (fuel : Nat) : Nat → Nat :=
  Nat.rec (motive := fun _ => Nat → Nat) (fun _ => 0)
    (fun _ ih n =>
      bif (Nat.mod n 2).beq 1 then 0 else Nat.add 1 (ih (Nat.div n 2)))
    fuel

/-- `u64::trailing_zeros` (only ever applied to nonzero words here). -/
def trailing_zeros (n : Nat) : Nat := trailingZerosAux 64 n

/-- `BitBoard::iter`: the set squares in ascending order, via repeated
lowest-set-bit extraction (`BitBoardIterator::next`).  64 units of fuel cover
every 64-bit word. -/
def bitboardIterAux (fuel : Nat) : Nat → List Square :=
  Nat.rec (motive := fun _ => Nat → List Square) (fun _ => [])
    (fun _ ih bits =>
      bif bits.beq 0 then []
      else
        match Square.from_index (trailing_zeros bits) with
        | some sq => sq :: ih (Nat.land bits (Nat.sub bits 1))
        | none => [])
    fuel

/-- `BitBoard::iter` collected into a list. -/
def BitBoard.iter (b : BitBoard) : List Square := bitboardIterAux 64 b

/-- Plain list indexing with a default, used to model reads of a fixed-size
Rust array at an in-bounds index (it agrees with `List.getD`). -/
def listGetD {α : Type} (l : List α) (i : Nat) (fallback : α) : α :=
  List.rec (motive := fun _ => Nat → α) (fun _ => fallback)
    (fun x _ ih n => bif n.beq 0 then x else ih (Nat.sub n 1)) l i

/-- Plain list update, used to model writes to a fixed-size Rust array at an
in-bounds index (it agrees with `List.set`). -/
def listSet {α : Type} (l : List α) (i : Nat) (v : α) : List α :=
  List.rec (motive := fun _ => Nat → List α) (fun _ => [])
    (fun x rest ih n => bif n.beq 0 then v :: rest else x :: ih (Nat.sub n 1)) l i

/-- Plain list append (it agrees with `List.append`); `MoveList::push` appends
one move at the end of the list. -/
def listAppend {α : Type} (xs ys : List α) : List α :=
  List.rec (motive := fun _ => List α) ys (fun x _ ih => x :: ih) xs

/-- Plain list length (it agrees with `List.length`). -/
def listLength {α : Type} (xs : List α) : Nat :=
  List.rec (motive := fun _ => Nat) 0 (fun _ _ ih => Nat.add ih 1) xs

/-! ### Mailbox board (`board.rs`, `Board`)

`squares: [Option<Piece>; 64]` is held as one natural number of 64 base-16
digits; digit `i` is the encoded content of square `i`. -/

/-- The 4-bit code of a square's content: `0` for an empty square, and
`1 + 6 * color + piece_type` (discriminants) for a piece, so White pieces get
codes 1..6 and Black pieces codes 7..12. -/
def pieceCode : Option Piece → Nat
  | none => 0
  | some p => Nat.add 1 (Nat.add (Nat.mul 6 p.color.toIdx) p.piece_type.toIdx)

/-- Decodes the codes 1..6 (White pieces). -/
def decodePieceW (c : Nat) : Option Piece :=
  bif c.ble 3 then
    bif c.beq 1 then some ⟨PieceType.Pawn, Color.White⟩
    else bif c.beq 2 then some ⟨PieceType.Knight, Color.White⟩
    else some ⟨PieceType.Bishop, Color.White⟩
  else
    bif c.beq 4 then some ⟨PieceType.Rook, Color.White⟩
    else bif c.beq 5 then some ⟨PieceType.Queen, Color.White⟩
    else some ⟨PieceType.King, Color.White⟩

/-- Decodes the codes 7..12 (Black pieces; codes above 12 never occur and
decode, arbitrarily, as the Black king). -/
def decodePieceB (c : Nat) : Option Piece :=
  bif c.ble 9 then
    bif c.beq 7 then some ⟨PieceType.Pawn, Color.Black⟩
    else bif c.beq 8 then some ⟨PieceType.Knight, Color.Black⟩
    else some ⟨PieceType.Bishop, Color.Black⟩
  else
    bif c.ble 10 then some ⟨PieceType.Rook, Color.Black⟩
    else bif c.beq 11 then some ⟨PieceType.Queen, Color.Black⟩
    else some ⟨PieceType.King, Color.Black⟩

/-- Decodes a 4-bit square code back into the square's content (the empty
square is tested first, then the two color halves). -/
def decodePiece (c : Nat) : Option Piece :=
  bif c.beq 0 then none
  else bif c.ble 6 then decodePieceW c else decodePieceB c

/-- The 256-bit all-ones mask: a board of 64 set nibbles. -/
def boardOnes : Nat :=
  0xFFFFFFFFFFFFFFFFFFFFFFFFFFFFFFFFFFFFFFFFFFFFFFFFFFFFFFFFFFFFFFFF

/-- Array-based board representation (`Board`): the 64-entry mailbox array
packed as 64 base-16 digits. -/
structure Board where
  squares : Nat
deriving DecidableEq, Repr

/-- `Board::empty`. -/
def Board.empty : Board := ⟨0⟩

/-- `Board::piece_at`: `self.squares[square.index()]`, by extracting digit
`square.index()`. -/
def Board.piece_at (b : Board) (square : Square) : Option Piece :=
  decodePiece (Nat.land (Nat.shiftRight b.squares (Nat.mul 4 square.val)) 15)

/-- `Board::set_piece`: `self.squares[square.index()] = piece`, by replacing
digit `square.index()`. -/
def Board.set_piece (b : Board) (square : Square) (piece : Option Piece) : Board :=
  ⟨Nat.lor
    (Nat.land b.squares
      (Nat.xor boardOnes (Nat.shiftLeft 15 (Nat.mul 4 square.val))))
    (Nat.shiftLeft (pieceCode piece) (Nat.mul 4 square.val))⟩

/-- `Board::move_piece`: reads the source and destination cells, clears the
source, writes the source's content to the destination, and returns the
captured piece. -/
def Board.move_piece (b : Board) (mfrom mto : Square) : Board × Option Piece :=
  let piece := b.piece_at mfrom
  let captured := b.piece_at mto
  let b := b.set_piece mfrom none
  let b := b.set_piece mto piece
  (b, captured)

/-- `Board::is_empty`. -/
def Board.is_empty (b : Board) (square : Square) : Bool :=
  (b.piece_at square).isNone

/-- `Board::is_color`. -/
def Board.is_color (b : Board) (square : Square) (color : Color) : Bool :=
  match b.piece_at square with
  | some p => p.color.beq color
  | none => false

/-- `Board::is_enemy`. -/
def Board.is_enemy (b : Board) (square : Square) (color : Color) : Bool :=
  match b.piece_at square with
  | some p => p.color.beq color.opponent
  | none => false

/-- The scanning loop of `Board::king_square` over the indices `i`, `i+1`, ...
with the given amount of fuel (the `for i in 0..64` loop with early return). -/
def Board.kingSquareAux (b : Board) (color : Color) (fuel : Nat) : Nat → Option Square :=
  Nat.rec (motive := fun _ => Nat → Option Square) (fun _ => none)
    (fun _ ih i =>
      match Square.from_index i with
      | some square =>
        match b.piece_at square with
        | some piece =>
          bif piece.piece_type.beq PieceType.King && piece.color.beq color then
            some square
          else ih (Nat.add i 1)
        | none => ih (Nat.add i 1)
      | none => ih (Nat.add i 1))
    fuel

/-- `Board::king_square`: scans the 64 squares for the king of `color`;
`none` models the panic when no king is found. -/
def Board.king_square (b : Board) (color : Color) : Option Square :=
  b.kingSquareAux color 64 0

/-- The piece placements performed by `Board::starting_position`, in order. -/
def startingPlacement : List (Nat × Piece) :=
  [(0, ⟨PieceType.Rook, Color.White⟩), (1, ⟨PieceType.Knight, Color.White⟩),
   (2, ⟨PieceType.Bishop, Color.White⟩), (3, ⟨PieceType.Queen, Color.White⟩),
   (4, ⟨PieceType.King, Color.White⟩), (5, ⟨PieceType.Bishop, Color.White⟩),
   (6, ⟨PieceType.Knight, Color.White⟩), (7, ⟨PieceType.Rook, Color.White⟩),
   (8, ⟨PieceType.Pawn, Color.White⟩), (9, ⟨PieceType.Pawn, Color.White⟩),
   (10, ⟨PieceType.Pawn, Color.White⟩), (11, ⟨PieceType.Pawn, Color.White⟩),
   (12, ⟨PieceType.Pawn, Color.White⟩), (13, ⟨PieceType.Pawn, Color.White⟩),
   (14, ⟨PieceType.Pawn, Color.White⟩), (15, ⟨PieceType.Pawn, Color.White⟩),
   (48, ⟨PieceType.Pawn, Color.Black⟩), (49, ⟨PieceType.Pawn, Color.Black⟩),
   (50, ⟨PieceType.Pawn, Color.Black⟩), (51, ⟨PieceType.Pawn, Color.Black⟩),
   (52, ⟨PieceType.Pawn, Color.Black⟩), (53, ⟨PieceType.Pawn, Color.Black⟩),
   (54, ⟨PieceType.Pawn, Color.Black⟩), (55, ⟨PieceType.Pawn, Color.Black⟩),
   (56, ⟨PieceType.Rook, Color.Black⟩), (57, ⟨PieceType.Knight, Color.Black⟩),
   (58, ⟨PieceType.Bishop, Color.Black⟩), (59, ⟨PieceType.Queen, Color.Black⟩),
   (60, ⟨PieceType.King, Color.Black⟩), (61, ⟨PieceType.Bishop, Color.Black⟩),
   (62, ⟨PieceType.Knight, Color.Black⟩), (63, ⟨PieceType.Rook, Color.Black⟩)]

/-- Performs a list of placements by successive `set_piece` calls. -/
def Board.place (b : Board) (l : List (Nat × Piece)) : Board :=
  List.rec (motive := fun _ => Board → Board) (fun board => board)
    (fun p _ ih board =>
      match Square.from_index p.1 with
      | some sq => ih (board.set_piece sq (some p.2))
      | none => ih board)
    l b

/-- `Board::starting_position`: the sequence of `set_piece` calls. -/
def Board.starting_position : Board :=
  Board.empty.place startingPlacement

/-! ### Bitboard set (`board.rs`, `BitBoardSet`) -/

/-- Bitboard-based board representation (`BitBoardSet`): per-(color, kind)
boards, per-color occupancy, total occupancy.  The `[[BitBoard; 6]; 2]` and
`[BitBoard; 2]` arrays are lists read at the enum discriminant. -/
structure BitBoardSet where
  pieces : List (List BitBoard)
  color_occupancy : List BitBoard
  all_occupancy : BitBoard
deriving DecidableEq, Repr

/-- `BitBoardSet::empty`. -/
def BitBoardSet.empty : BitBoardSet :=
  ⟨[[0, 0, 0, 0, 0, 0], [0, 0, 0, 0, 0, 0]], [0, 0], 0⟩

/-- `BitBoardSet::pieces(piece_type, color)`:
`self.pieces[color as usize][piece_type as usize]`. -/
def BitBoardSet.pieces_bb (b : BitBoardSet) (piece_type : PieceType) (color : Color) :
    BitBoard :=
  listGetD (listGetD b.pieces color.toIdx []) piece_type.toIdx 0

/-- `BitBoardSet::color_occupancy(color)`. -/
def BitBoardSet.color_occupancy_bb (b : BitBoardSet) (color : Color) : BitBoard :=
  listGetD b.color_occupancy color.toIdx 0

/-- `BitBoardSet::set_piece`: ORs the square's bit into the piece's board,
the color occupancy and the total occupancy. -/
def BitBoardSet.set_piece (bs : BitBoardSet) (square : Square) (piece : Piece) :
    BitBoardSet :=
  let bb := BitBoard.from_square square
  let ci := piece.color.toIdx
  let ti := piece.piece_type.toIdx
  { bs with
    pieces := listSet bs.pieces ci (listSet (listGetD bs.pieces ci []) ti
      ((listGetD (listGetD bs.pieces ci []) ti 0).union bb)),
    color_occupancy := listSet bs.color_occupancy ci
      ((listGetD bs.color_occupancy ci 0).union bb),
    all_occupancy := bs.all_occupancy.union bb }

/-- Intersects every bitboard of a list with a fixed mask (one row of the
`clear_square` loop). -/
def bbRowClear (mask : BitBoard) (row : List BitBoard) : List BitBoard :=
  List.rec (motive := fun _ => List BitBoard) []
    (fun bb _ ih => bb.intersection mask :: ih) row

/-- `BitBoardSet::clear_square`: ANDs the complement of the square's bit into
every board (the Rust loop over all colors and piece types). -/
def BitBoardSet.clear_square (bs : BitBoardSet) (square : Square) : BitBoardSet :=
  let complement := (BitBoard.from_square square).complement
  { pieces := List.rec (motive := fun _ => List (List BitBoard)) []
      (fun row _ ih => bbRowClear complement row :: ih) bs.pieces,
    color_occupancy := bbRowClear complement bs.color_occupancy,
    all_occupancy := bs.all_occupancy.intersection complement }

/-- `BitBoardSet::move_piece`. -/
def BitBoardSet.move_piece (bs : BitBoardSet) (mfrom mto : Square) (piece : Piece) :
    BitBoardSet :=
  ((bs.clear_square mfrom).clear_square mto).set_piece mto piece

/-- The accumulating loop of `BitBoardSet::from_board` over the indices `i`,
`i+1`, ... with the given amount of fuel. -/
def BitBoardSet.fromBoardAux (board : Board) (fuel : Nat) :
    Nat → BitBoardSet → BitBoardSet :=
  Nat.rec (motive := fun _ => Nat → BitBoardSet → BitBoardSet)
    (fun _ bitboards => bitboards)
    (fun _ ih i bitboards =>
      ih (Nat.add i 1)
        (match Square.from_index i with
         | some square =>
           match board.piece_at square with
           | some piece => bitboards.set_piece square piece
           | none => bitboards
         | none => bitboards))
    fuel

/-- `BitBoardSet::from_board`: rebuilds the bitboards from the mailbox. -/
def BitBoardSet.from_board (board : Board) : BitBoardSet :=
  BitBoardSet.fromBoardAux board 64 0 BitBoardSet.empty

/-! ### Combined board state (`board.rs`, `BoardState`) -/

/-- `BoardState`: the mailbox and the bitboards side by side. -/
structure BoardState where
  array_board : Board
  bitboards : BitBoardSet
deriving DecidableEq, Repr

/-- `BoardState::empty`. -/
def BoardState.empty : BoardState := ⟨Board.empty, BitBoardSet.empty⟩

/-- `BoardState::starting_position`. -/
def BoardState.starting_position : BoardState :=
  let array_board := Board.starting_position
  ⟨array_board, BitBoardSet.from_board array_board⟩

/-- `BoardState::piece_at`. -/
def BoardState.piece_at (b : BoardState) (square : Square) : Option Piece :=
  b.array_board.piece_at square

/-- `BoardState::move_piece`; `none` models the `expect` panic when the
source square is empty. -/
def BoardState.move_piece (b : BoardState) (mfrom mto : Square) :
    Option (BoardState × Option Piece) :=
  match b.piece_at mfrom with
  | none => none
  | some piece =>
    let moved := b.array_board.move_piece mfrom mto
    some (⟨moved.1, b.bitboards.move_piece mfrom mto piece⟩, moved.2)

/-! ### Game state (`game_state.rs`) -/

/-- Complete state of a chess game (`GameState`). -/
structure GameState where
  board : BoardState
  turn : Color
  castling : CastlingRights
  en_passant : Option Square
  halfmove_clock : Nat
  fullmove_number : Nat
deriving DecidableEq, Repr

/-- `GameState::new`: the starting position. -/
def GameState.new : GameState :=
  ⟨BoardState.starting_position, Color.White, CastlingRights.all, none, 0, 1⟩

/-- `GameState::empty`. -/
def GameState.empty : GameState :=
  ⟨BoardState.empty, Color.White, CastlingRights.none, none, 0, 1⟩

/-- `GameState::side_to_move`. -/
def GameState.side_to_move (s : GameState) : Color := s.turn

/-- `GameState::is_fifty_move_draw`. -/
def GameState.is_fifty_move_draw (s : GameState) : Bool := 100 ≤ s.halfmove_clock

/-- `GameState::apply_castle`: moves the king, moves the rook from its corner
to the crossed square, and increments the halfmove clock.  The state is the
clone being mutated; `none` models the `expect` panics inside `move_piece`. -/
def GameState.apply_castle (s : GameState) (mv : Move) : Option GameState :=
  let rank := mv.from'.rank
  let rook_from_to :=
    bif (mv.from'.file.index).blt (mv.to'.file.index) then
      -- kingside: h-file rook to the f-file
      (Square.new ⟨7⟩ rank, Square.new ⟨5⟩ rank)
    else
      -- queenside: a-file rook to the d-file
      (Square.new ⟨0⟩ rank, Square.new ⟨3⟩ rank)
  match s.board.move_piece mv.from' mv.to' with
  | none => none
  | some (board, _) =>
    match board.move_piece rook_from_to.1 rook_from_to.2 with
    | none => none
    | some (board, _) =>
      some { s with board := board, halfmove_clock := Nat.add s.halfmove_clock 1 }

/-- The en-passant-capture block of `GameState::apply_move`: removes the
enemy pawn behind the target and rebuilds the bitboards from the mailbox. -/
def GameState.epCaptureState (new_state : GameState) (mv : Move) : GameState :=
  let capture_square := Square.new mv.to'.file mv.from'.rank
  let array_board := new_state.board.array_board.set_piece capture_square none
  { new_state with board := ⟨array_board, BitBoardSet.from_board array_board⟩ }

/-- The promotion block of `GameState::apply_move`: writes the promoted piece
at the destination and rebuilds the bitboards from the mailbox. -/
def GameState.promotionState (new_state : GameState) (mv : Move)
    (promotion : PieceType) (color : Color) : GameState :=
  let array_board := new_state.board.array_board.set_piece mv.to'
    (some (Piece.new promotion color))
  { new_state with board := ⟨array_board, BitBoardSet.from_board array_board⟩ }

/-- The double-push block of `GameState::apply_move`: sets the en passant
target to the square between source and destination. -/
def GameState.epSetState (new_state : GameState) (mv : Move) : GameState :=
  match Rank.new (Nat.div (Nat.add mv.from'.rank.index mv.to'.rank.index) 2) with
  | some r => { new_state with en_passant := some (Square.new mv.from'.file r) }
  | none => new_state

/-- `GameState::apply_move`: returns the successor state; `none` models the
panics (missing piece at the source, missing rook for castling). -/
def GameState.apply_move (s : GameState) (mv : Move) : Option GameState :=
  match s.board.piece_at mv.from' with
  | none => none
  | some piece =>
    let step :=
      bif piece.piece_type.beq PieceType.King && (mv.from'.distance mv.to').beq 2 then
        s.apply_castle mv
      else
        -- normal move or capture
        match s.board.move_piece mv.from' mv.to' with
        | none => none
        | some (board, captured) =>
          let new_state := { s with board := board }
          -- en passant capture: remove the enemy pawn behind the target
          let new_state :=
            bif piece.piece_type.beq PieceType.Pawn &&
                (match s.en_passant with
                 | some ep => mv.to'.beq ep
                 | none => false) then
              new_state.epCaptureState mv
            else new_state
          -- promotion: replace the pawn at the destination
          let new_state :=
            match mv.promotion with
            | some promotion => new_state.promotionState mv promotion piece.color
            | none => new_state
          -- en passant target: set iff this was a pawn double push
          let new_state := { new_state with en_passant := none }
          let new_state :=
            bif piece.piece_type.beq PieceType.Pawn && (mv.from'.distance mv.to').beq 2 then
              new_state.epSetState mv
            else new_state
          -- halfmove clock
          let new_state :=
            bif piece.piece_type.beq PieceType.Pawn || captured.isSome then
              { new_state with halfmove_clock := 0 }
            else
              { new_state with halfmove_clock := Nat.add s.halfmove_clock 1 }
          some new_state
    match step with
    | none => none
    | some new_state =>
      -- castling rights, fullmove number, side to move
      let new_state := { new_state with
        castling := s.castling.update_after_move mv.from' mv.to' }
      let new_state :=
        bif s.turn.beq Color.Black then
          { new_state with fullmove_number := Nat.add new_state.fullmove_number 1 }
        else new_state
      some { new_state with turn := s.turn.opponent }

/-- The pawn-attack mask around `square` for a White attacker (the
`Color::White` arm of `is_pawn_attacked`): White pawns attack diagonally
upward, so look down-left and down-right. -/
def whitePawnAttackMask (square : Square) : BitBoard :=
  let attacks : BitBoard := BitBoard.EMPTY
  let attacks :=
    match square.file.offset (Int.negSucc 0), square.rank.offset (Int.negSucc 0) with
    | some left, some down => attacks.set (Square.new left down)
    | _, _ => attacks
  match square.file.offset (Int.ofNat 1), square.rank.offset (Int.negSucc 0) with
  | some right, some down => attacks.set (Square.new right down)
  | _, _ => attacks

/-- The pawn-attack mask around `square` for a Black attacker (the
`Color::Black` arm of `is_pawn_attacked`). -/
def blackPawnAttackMask (square : Square) : BitBoard :=
  let attacks : BitBoard := BitBoard.EMPTY
  let attacks :=
    match square.file.offset (Int.negSucc 0), square.rank.offset (Int.ofNat 1) with
    | some left, some up => attacks.set (Square.new left up)
    | _, _ => attacks
  match square.file.offset (Int.ofNat 1), square.rank.offset (Int.ofNat 1) with
  | some right, some up => attacks.set (Square.new right up)
  | _, _ => attacks

/-- `GameState::is_pawn_attacked`: pawn-attack mask around `square`
intersected with the attacker's pawns. -/
def GameState.is_pawn_attacked (s : GameState) (square : Square) (attacker : Color) :
    Bool :=
  let pawn_attacks : BitBoard :=
    match attacker with
    | Color.White => whitePawnAttackMask square
    | Color.Black => blackPawnAttackMask square
  let enemy_pawns := s.board.bitboards.pieces_bb PieceType.Pawn attacker
  !(pawn_attacks.intersection enemy_pawns).is_empty

/-- The eight knight offsets (`KNIGHT_MOVES`), in constructor form. -/
def knightMoves : List (Int × Int) :=
  [(Int.negSucc 1, Int.negSucc 0), (Int.negSucc 1, Int.ofNat 1),
   (Int.negSucc 0, Int.negSucc 1), (Int.negSucc 0, Int.ofNat 2),
   (Int.ofNat 1, Int.negSucc 1), (Int.ofNat 1, Int.ofNat 2),
   (Int.ofNat 2, Int.negSucc 0), (Int.ofNat 2, Int.ofNat 1)]

/-- The eight king offsets (`KING_MOVES`), in constructor form. -/
def kingMoves : List (Int × Int) :=
  [(Int.negSucc 0, Int.negSucc 0), (Int.negSucc 0, Int.ofNat 0),
   (Int.negSucc 0, Int.ofNat 1), (Int.ofNat 0, Int.negSucc 0),
   (Int.ofNat 0, Int.ofNat 1), (Int.ofNat 1, Int.negSucc 0),
   (Int.ofNat 1, Int.ofNat 0), (Int.ofNat 1, Int.ofNat 1)]

/-- Builds the offset mask used by the knight and king attack tests (the
Rust loop over a fixed offset table accumulating into a bitboard). -/
def offsetMaskLoop (square : Square) (deltas : List (Int × Int)) :
    BitBoard → BitBoard :=
  List.rec (motive := fun _ => BitBoard → BitBoard) (fun attacks => attacks)
    (fun d _ ih attacks =>
      ih (match square.file.offset d.1, square.rank.offset d.2 with
          | some file, some rank => BitBoard.set attacks (Square.new file rank)
          | _, _ => attacks))
    deltas

/-- The accumulated offset mask, starting from the empty bitboard. -/
def offsetMask (square : Square) (deltas : List (Int × Int)) : BitBoard :=
  offsetMaskLoop square deltas BitBoard.EMPTY

/-- `GameState::is_knight_attacked`. -/
def GameState.is_knight_attacked (s : GameState) (square : Square) (attacker : Color) :
    Bool :=
  let knight_attacks := offsetMask square knightMoves
  let enemy_knights := s.board.bitboards.pieces_bb PieceType.Knight attacker
  !(knight_attacks.intersection enemy_knights).is_empty

/-- The blocked case of the ray walk: the found piece attacks along the ray
exactly when it has the attacker's color and the matching slider kind
(bishop/queen on diagonals, rook/queen on straights). -/
def rayHitCheck (piece : Piece) (attacker : Color) (diagonal : Bool) : Bool :=
  bif piece.color.beq attacker then
    bif diagonal then
      piece.piece_type.beq PieceType.Bishop ||
      piece.piece_type.beq PieceType.Queen
    else
      piece.piece_type.beq PieceType.Rook ||
      piece.piece_type.beq PieceType.Queen
  else false

/-- The walking loop of `GameState::is_attacked_along_ray`, stepping away from
the square until a piece or the edge stops the ray (7 units of fuel reach
across the whole board). -/
def GameState.rayAttacked (s : GameState) (attacker : Color) (diagonal : Bool)
    (df dr : Int) (fuel : Nat) : File → Rank → Bool :=
  Nat.rec (motive := fun _ => File → Rank → Bool) (fun _ _ => false)
    (fun _ ih current_file current_rank =>
      match current_file.offset df, current_rank.offset dr with
      | some file, some rank =>
        let current_square := Square.new file rank
        match s.board.piece_at current_square with
        | some piece => rayHitCheck piece attacker diagonal
        | none => ih file rank
      | _, _ => false)
    fuel

/-- `GameState::is_attacked_along_ray`. -/
def GameState.is_attacked_along_ray (s : GameState) (square : Square)
    (df dr : Int) (attacker : Color) (diagonal : Bool) : Bool :=
  s.rayAttacked attacker diagonal df dr 7 square.file square.rank

/-- The four diagonal directions (`DIAGONALS`), in constructor form. -/
def diagonalDirs : List (Int × Int) :=
  [(Int.negSucc 0, Int.negSucc 0), (Int.negSucc 0, Int.ofNat 1),
   (Int.ofNat 1, Int.negSucc 0), (Int.ofNat 1, Int.ofNat 1)]

/-- The four orthogonal directions (`STRAIGHTS`), in constructor form. -/
def straightDirs : List (Int × Int) :=
  [(Int.negSucc 0, Int.ofNat 0), (Int.ofNat 1, Int.ofNat 0),
   (Int.ofNat 0, Int.negSucc 0), (Int.ofNat 0, Int.ofNat 1)]

/-- The loop of `GameState::is_slider_attacked` over one direction table. -/
def GameState.sliderDirLoop (s : GameState) (square : Square) (attacker : Color)
    (diagonal : Bool) (dirs : List (Int × Int)) : Bool :=
  List.rec (motive := fun _ => Bool) false
    (fun d _ ih =>
      bif s.is_attacked_along_ray square d.1 d.2 attacker diagonal then true
      else ih)
    dirs

/-- `GameState::is_slider_attacked`: diagonal rays (bishop/queen), then
orthogonal rays (rook/queen). -/
def GameState.is_slider_attacked (s : GameState) (square : Square) (attacker : Color) :
    Bool :=
  s.sliderDirLoop square attacker true diagonalDirs ||
  s.sliderDirLoop square attacker false straightDirs

/-- `GameState::is_king_attacked`. -/
def GameState.is_king_attacked (s : GameState) (square : Square) (attacker : Color) :
    Bool :=
  let king_attacks := offsetMask square kingMoves
  let enemy_king := s.board.bitboards.pieces_bb PieceType.King attacker
  !(king_attacks.intersection enemy_king).is_empty

/-- `GameState::is_attacked_by`. -/
def GameState.is_attacked_by (s : GameState) (square : Square) (attacker : Color) :
    Bool :=
  s.is_pawn_attacked square attacker ||
  s.is_knight_attacked square attacker ||
  s.is_slider_attacked square attacker ||
  s.is_king_attacked square attacker

/-- `GameState::is_in_check`; `none` models the king-lookup panic. -/
def GameState.is_in_check (s : GameState) : Option Bool :=
  match s.board.array_board.king_square s.turn with
  | none => none
  | some king_square => some (s.is_attacked_by king_square s.turn.opponent)

/-- `GameState::is_side_in_check`; `none` models the king-lookup panic. -/
def GameState.is_side_in_check (s : GameState) (color : Color) : Option Bool :=
  match s.board.array_board.king_square color with
  | none => none
  | some king_square => some (s.is_attacked_by king_square color.opponent)

/-! ### Move generation (`move_gen.rs`)

The bounded `MoveList` is modelled as a `List Move`; `push` appends at the
end, so the order of generated moves is preserved. -/

/-- The four promotion moves pushed together (queen, rook, bishop, knight, in
the source's order). -/
def promotionMoves (from_square to_square : Square) : List Move :=
  [Move.new_promotion from_square to_square PieceType.Queen,
   Move.new_promotion from_square to_square PieceType.Rook,
   Move.new_promotion from_square to_square PieceType.Bishop,
   Move.new_promotion from_square to_square PieceType.Knight]

/-- The double-push block of `generate_pawn_moves`: from the single-push
square, step once more and push if the square is empty. -/
def pawnDoublePush (state : GameState) (direction : Int) (from_square : Square)
    (from_file : File) (to_rank : Rank) (moves : List Move) : List Move :=
  match to_rank.offset direction with
  | some double_rank =>
    let double_square := Square.new from_file double_rank
    bif state.board.array_board.is_empty double_square then
      listAppend moves [Move.new from_square double_square]
    else moves
  | none => moves

/-- One capture side of `generate_pawn_moves`: capture onto `capture_square`
if it holds an enemy piece, with promotions on the far rank. -/
def pawnCaptureAt (state : GameState) (color : Color) (promotion_rank : Rank)
    (from_square capture_square : Square) (to_rank : Rank) (moves : List Move) :
    List Move :=
  bif state.board.array_board.is_enemy capture_square color then
    bif to_rank.val.beq promotion_rank.val then
      listAppend moves (promotionMoves from_square capture_square)
    else listAppend moves [Move.new from_square capture_square]
  else moves

/-- The en passant block of `generate_pawn_moves`, for a set en passant
square: the pawn must stand on an adjacent file one step before the en
passant rank; `(a as i8 - b as i8).abs()` is the natural distance of the two
file indices. -/
def pawnEpMoves (ep_square : Square) (direction : Int) (from_square : Square)
    (from_rank : Rank) (from_file : File) (moves : List Move) : List Move :=
  match from_rank.offset direction with
  | some ep_rank =>
    bif ep_square.rank.val.beq ep_rank.val then
      let file_diff :=
        bif (from_file.index).ble (ep_square.file.index) then
          Nat.sub ep_square.file.index from_file.index
        else Nat.sub from_file.index ep_square.file.index
      bif file_diff.beq 1 then listAppend moves [Move.new from_square ep_square]
      else moves
    else moves
  | none => moves

/-- The body of the `generate_pawn_moves` loop for one pawn square: pushes,
double pushes, captures, promotions and en passant for that pawn. -/
def pawnMovesFor (state : GameState) (color : Color) (direction : Int)
    (start_rank promotion_rank : Rank) (from_square : Square) (moves : List Move) :
    List Move :=
  let from_rank := from_square.rank
  let from_file := from_square.file
  -- single push (with promotions) and double push
  let moves :=
      match from_rank.offset direction with
      | some to_rank =>
        let to_square := Square.new from_file to_rank
        bif state.board.array_board.is_empty to_square then
          let moves :=
            bif to_rank.val.beq promotion_rank.val then
              listAppend moves (promotionMoves from_square to_square)
            else listAppend moves [Move.new from_square to_square]
          bif from_rank.val.beq start_rank.val then
            pawnDoublePush state direction from_square from_file to_rank moves
          else moves
        else moves
      | none => moves
  -- captures (left, then right), with promotions on the far rank
  let moves :=
      match from_rank.offset direction with
      | some to_rank =>
        let moves :=
          match from_file.offset (Int.negSucc 0) with
          | some left_file =>
            pawnCaptureAt state color promotion_rank from_square
              (Square.new left_file to_rank) to_rank moves
          | none => moves
        match from_file.offset (Int.ofNat 1) with
        | some right_file =>
          pawnCaptureAt state color promotion_rank from_square
            (Square.new right_file to_rank) to_rank moves
        | none => moves
      | none => moves
  -- en passant
  match state.en_passant with
  | some ep_square =>
    pawnEpMoves ep_square direction from_square from_rank from_file moves
  | none => moves

/-- The loop of `generate_pawn_moves` over the pawn squares. -/
def pawnSquaresLoop (state : GameState) (color : Color) (direction : Int)
    (start_rank promotion_rank : Rank) (squares : List Square) :
    List Move → List Move :=
  List.rec (motive := fun _ => List Move → List Move) (fun moves => moves)
    (fun from_square _ ih moves =>
      ih (pawnMovesFor state color direction start_rank promotion_rank
            from_square moves))
    squares

/-- `generate_pawn_moves`. -/
def generate_pawn_moves (state : GameState) (color : Color) (moves : List Move) :
    List Move :=
  let pawns := state.board.bitboards.pieces_bb PieceType.Pawn color
  let direction := color.pawn_direction
  let start_rank := color.pawn_rank
  let promotion_rank := color.promotion_rank
  pawnSquaresLoop state color direction start_rank promotion_rank pawns.iter moves

/-- The inner loop of `generate_knight_moves` over the eight offsets. -/
def knightDeltasLoop (state : GameState) (color : Color) (from_square : Square)
    (deltas : List (Int × Int)) : List Move → List Move :=
  List.rec (motive := fun _ => List Move → List Move) (fun moves => moves)
    (fun d _ ih moves =>
      ih (match from_square.file.offset d.1, from_square.rank.offset d.2 with
          | some to_file, some to_rank =>
            let to_square := Square.new to_file to_rank
            bif !state.board.array_board.is_color to_square color then
              listAppend moves [Move.new from_square to_square]
            else moves
          | _, _ => moves))
    deltas

/-- The loop of `generate_knight_moves` over the knight squares. -/
def knightSquaresLoop (state : GameState) (color : Color) (squares : List Square) :
    List Move → List Move :=
  List.rec (motive := fun _ => List Move → List Move) (fun moves => moves)
    (fun from_square _ ih moves =>
      ih (knightDeltasLoop state color from_square knightMoves moves))
    squares

/-- `generate_knight_moves`. -/
def generate_knight_moves (state : GameState) (color : Color) (moves : List Move) :
    List Move :=
  let knights := state.board.bitboards.pieces_bb PieceType.Knight color
  knightSquaresLoop state color knights.iter moves

/-- One ray of `generate_sliding_moves`: walk until a piece or the edge stops
the ray (7 units of fuel reach across the whole board). -/
def generate_sliding_ray (state : GameState) (from_square : Square) (color : Color)
    (df dr : Int) (fuel : Nat) : File → Rank → List Move → List Move :=
  Nat.rec (motive := fun _ => File → Rank → List Move → List Move)
    (fun _ _ moves => moves)
    (fun _ ih current_file current_rank moves =>
      match current_file.offset df, current_rank.offset dr with
      | some file, some rank =>
        let to_square := Square.new file rank
        bif state.board.array_board.is_empty to_square then
          ih file rank (listAppend moves [Move.new from_square to_square])
        else bif state.board.array_board.is_enemy to_square color then
          listAppend moves [Move.new from_square to_square]
        else moves
      | _, _ => moves)
    fuel

/-- `generate_sliding_moves`: one ray per direction. -/
def generate_sliding_moves (state : GameState) (from_square : Square) (color : Color)
    (dirs : List (Int × Int)) : List Move → List Move :=
  List.rec (motive := fun _ => List Move → List Move) (fun moves => moves)
    (fun d _ ih moves =>
      ih (generate_sliding_ray state from_square color d.1 d.2 7
            from_square.file from_square.rank moves))
    dirs

/-- The eight queen directions (`ALL_DIRS`), in constructor form. -/
def allDirs : List (Int × Int) :=
  [(Int.negSucc 0, Int.negSucc 0), (Int.negSucc 0, Int.ofNat 0),
   (Int.negSucc 0, Int.ofNat 1), (Int.ofNat 0, Int.negSucc 0),
   (Int.ofNat 0, Int.ofNat 1), (Int.ofNat 1, Int.negSucc 0),
   (Int.ofNat 1, Int.ofNat 0), (Int.ofNat 1, Int.ofNat 1)]

/-- The loop of a sliding-piece generator over its piece squares, with the
piece's direction table. -/
def sliderSquaresLoop (state : GameState) (color : Color)
    (directions : List (Int × Int)) (squares : List Square) :
    List Move → List Move :=
  List.rec (motive := fun _ => List Move → List Move) (fun moves => moves)
    (fun from_square _ ih moves =>
      ih (generate_sliding_moves state from_square color directions moves))
    squares

/-- `generate_bishop_moves`. -/
def generate_bishop_moves (state : GameState) (color : Color) (moves : List Move) :
    List Move :=
  let bishops := state.board.bitboards.pieces_bb PieceType.Bishop color
  sliderSquaresLoop state color diagonalDirs bishops.iter moves

/-- `generate_rook_moves`. -/
def generate_rook_moves (state : GameState) (color : Color) (moves : List Move) :
    List Move :=
  let rooks := state.board.bitboards.pieces_bb PieceType.Rook color
  sliderSquaresLoop state color straightDirs rooks.iter moves

/-- `generate_queen_moves`. -/
def generate_queen_moves (state : GameState) (color : Color) (moves : List Move) :
    List Move :=
  let queens := state.board.bitboards.pieces_bb PieceType.Queen color
  sliderSquaresLoop state color allDirs queens.iter moves

/-- The inner loop of `generate_king_moves` over the eight offsets. -/
def kingDeltasLoop (state : GameState) (color : Color) (from_square : Square)
    (deltas : List (Int × Int)) : List Move → List Move :=
  List.rec (motive := fun _ => List Move → List Move) (fun moves => moves)
    (fun d _ ih moves =>
      ih (match from_square.file.offset d.1, from_square.rank.offset d.2 with
          | some to_file, some to_rank =>
            let to_square := Square.new to_file to_rank
            bif !state.board.array_board.is_color to_square color then
              listAppend moves [Move.new from_square to_square]
            else moves
          | _, _ => moves))
    deltas

/-- The loop of `generate_king_moves` over the king squares. -/
def kingSquaresLoop (state : GameState) (color : Color) (squares : List Square) :
    List Move → List Move :=
  List.rec (motive := fun _ => List Move → List Move) (fun moves => moves)
    (fun from_square _ ih moves =>
      ih (kingDeltasLoop state color from_square kingMoves moves))
    squares

/-- `generate_king_moves` (castling excluded). -/
def generate_king_moves (state : GameState) (color : Color) (moves : List Move) :
    List Move :=
  let king := state.board.bitboards.pieces_bb PieceType.King color
  kingSquaresLoop state color king.iter moves

/-- The kingside block of `generate_castling_moves`: the f- and g-squares
must be empty and unattacked. -/
def castleKingside (state : GameState) (color : Color) (king_square : Square)
    (back_rank : Rank) (moves : List Move) : List Move :=
  let f1 := Square.new ⟨5⟩ back_rank
  let g1 := Square.new ⟨6⟩ back_rank
  bif state.board.array_board.is_empty f1 &&
      state.board.array_board.is_empty g1 then
    bif !state.is_attacked_by f1 color.opponent &&
        !state.is_attacked_by g1 color.opponent then
      listAppend moves [Move.new king_square g1]
    else moves
  else moves

/-- The queenside block of `generate_castling_moves`: the b-, c- and
d-squares must be empty, the c- and d-squares unattacked. -/
def castleQueenside (state : GameState) (color : Color) (king_square : Square)
    (back_rank : Rank) (moves : List Move) : List Move :=
  let d1 := Square.new ⟨3⟩ back_rank
  let c1 := Square.new ⟨2⟩ back_rank
  let b1 := Square.new ⟨1⟩ back_rank
  bif state.board.array_board.is_empty d1 &&
      state.board.array_board.is_empty c1 &&
      state.board.array_board.is_empty b1 then
    bif !state.is_attacked_by d1 color.opponent &&
        !state.is_attacked_by c1 color.opponent then
      listAppend moves [Move.new king_square c1]
    else moves
  else moves

/-- `generate_castling_moves`; `none` models the king-lookup panic (reached
only when some castling right is present). -/
def generate_castling_moves (state : GameState) (color : Color) (moves : List Move) :
    Option (List Move) :=
  let rights := state.castling.get color
  bif !rights.any then some moves
  else
    match state.board.array_board.king_square color with
    | none => none
    | some king_square =>
      let back_rank : Rank := bif color.beq Color.White then ⟨0⟩ else ⟨7⟩
      bif state.is_attacked_by king_square color.opponent then some moves
      else
        let moves :=
          bif rights.kingside then
            castleKingside state color king_square back_rank moves
          else moves
        let moves :=
          bif rights.queenside then
            castleQueenside state color king_square back_rank moves
          else moves
        some moves

/-- `generate_pseudo_legal_moves`. -/
def generate_pseudo_legal_moves (state : GameState) : Option (List Move) :=
  let color := state.turn
  let moves : List Move := []
  let moves := generate_pawn_moves state color moves
  let moves := generate_knight_moves state color moves
  let moves := generate_bishop_moves state color moves
  let moves := generate_rook_moves state color moves
  let moves := generate_queen_moves state color moves
  let moves := generate_king_moves state color moves
  generate_castling_moves state color moves

/-- `filter_legal_moves`: keeps the moves whose trial successor does not leave
the mover's king attacked; `none` models the panics inside `apply_move` or the
king lookup. -/
def filter_legal_moves (state : GameState) (moves : List Move) :
    Option (List Move) :=
  List.rec (motive := fun _ => Option (List Move)) (some [])
    (fun mv _ ih =>
      match state.apply_move mv with
      | none => none
      | some new_state =>
        match new_state.is_side_in_check state.turn with
        | none => none
        | some check =>
          match ih with
          | none => none
          | some tail => bif check then some tail else some (mv :: tail))
    moves

/-- `generate_legal_moves`. -/
def generate_legal_moves (state : GameState) : Option (List Move) :=
  match generate_pseudo_legal_moves state with
  | none => none
  | some moves => filter_legal_moves state moves

/-! ### Perft (`perft.rs`) -/

/-- The summation loop of `perft` over the legal moves: applies each move and
adds the child count computed by `child`. -/
def perftChildren (child : GameState → Option Nat) (state : GameState)
    (moves : List Move) : Nat → Option Nat :=
  List.rec (motive := fun _ => Nat → Option Nat) (fun nodes => some nodes)
    (fun mv _ ih nodes =>
      match state.apply_move mv with
      | none => none
      | some new_state =>
        match child new_state with
        | none => none
        | some n => ih (Nat.add nodes n))
    moves

/-- `perft` with the depth first so that the recursion is structural: at
depth `d + 1` the children are counted at depth `d`, with the source's
depth-1 shortcut returning the length of the move list. -/
def perftAux (depth : Nat) : GameState → Option Nat :=
  Nat.rec (motive := fun _ => GameState → Option Nat) (fun _ => some 1)
    (fun d ih state =>
      match generate_legal_moves state with
      | none => none
      | some moves =>
        bif d.beq 0 then some (listLength moves)
        else perftChildren ih state moves 0)
    depth

/-- `perft`: leaf count of the legal move tree at the given depth (with the
depth-1 shortcut of the source); `none` models a panic below. -/
def perft (state : GameState) (depth : Nat) : Option Nat :=
  perftAux depth state

/-! ### Transposition table (`agents/transposition.rs`)

`u64` words are `Nat` below `2^64`; the `Vec<AtomicU64>` is a total function
from indices to words together with its length (every index the code forms is
`(hash & size_mask) * 2` or its successor, which lies below the length). -/

/-- Type of node in the search tree (`NodeType`). -/
inductive NodeType where
  | Exact
  | LowerBound
  | UpperBound
deriving DecidableEq, Repr

/-- Entry in the transposition table (`TranspositionEntry`). -/
structure TranspositionEntry where
  hash : Nat
  best_move : Option Move
  score : Int
  depth : Nat
  node_type : NodeType
  age : Nat
deriving DecidableEq, Repr

/-- `TranspositionEntry::default`. -/
def TranspositionEntry.default : TranspositionEntry :=
  ⟨0, none, 0, 0, NodeType.Exact, 0⟩

/-- Transposition table (`TranspositionTable`): entries as a total function,
with the vector length kept alongside. -/
structure TranspositionTable where
  entries : Nat → Nat
  entries_len : Nat
  size_mask : Nat
  generation : Nat

/-- `usize::next_power_of_two`: the smallest power of two that is not below
`n` (`1` for `n = 0`); 64 doublings cover every `usize`. -/
def nextPowerOfTwoAux (n : Nat) (fuel : Nat) : Nat → Nat :=
  Nat.rec (motive := fun _ => Nat → Nat) (fun power => power)
    (fun _ ih power => bif power.blt n then ih (Nat.mul power 2) else power)
    fuel

/-- `usize::next_power_of_two`. -/
def nextPowerOfTwo (n : Nat) : Nat := nextPowerOfTwoAux n 64 1

/-- `TranspositionTable::new`: `size_mb * 65536` entry budget, rounded by
`next_power_of_two() / 2`, 2 words per slot, all words zero. -/
def TranspositionTable.new (size_mb : Nat) : TranspositionTable :=
  let entries_per_mb := Nat.div (Nat.mul 1024 1024) 16
  let num_entries := Nat.mul size_mb entries_per_mb
  let size := Nat.div (nextPowerOfTwo num_entries) 2
  let size_mask := Nat.sub size 1
  { entries := fun _ => 0,
    entries_len := Nat.mul size 2,
    size_mask := size_mask,
    generation := 0 }

/-- The number of 16-byte slots of the table (`entries.len() / 2`). -/
def TranspositionTable.slots (t : TranspositionTable) : Nat :=
  Nat.div t.entries_len 2

/-- The promotion nibble of `pack_entry` (0 for `None` and for non-promotion
piece kinds). -/
def promoBits : Option PieceType → Nat
  | some PieceType.Queen => 1
  | some PieceType.Rook => 2
  | some PieceType.Bishop => 3
  | some PieceType.Knight => 4
  | _ => 0

/-- The 16 move bits of `pack_entry`: `from << 10 | to << 4 | promo`, 0 when
there is no best move. -/
def moveBits : Option Move → Nat
  | none => 0
  | some mv =>
    Nat.lor (Nat.lor (Nat.shiftLeft mv.from'.index 10) (Nat.shiftLeft mv.to'.index 4))
      (promoBits mv.promotion)

/-- The two bits of the node type in `pack_entry`. -/
def nodeTypeBits : NodeType → Nat
  | NodeType.Exact => 0
  | NodeType.LowerBound => 1
  | NodeType.UpperBound => 2

/-- `(entry.score + 32768) as u64`: the `i32` sum reinterpreted as a 64-bit
word (a negative sum wraps modulo `2^64`). -/
def scoreBiased (score : Int) : Nat :=
  ((score + 32768) % (2 ^ 64 : Int)).toNat

/-- `TranspositionTable::pack_entry`: the hash word and the packed word
`move | score << 16 | depth << 32 | node_type << 40 | age << 42`. -/
def pack_entry (entry : TranspositionEntry) : Nat × Nat :=
  let packed1 := entry.hash
  let packed2 := moveBits entry.best_move
  let packed2 := Nat.lor packed2 (Nat.shiftLeft (Nat.land (scoreBiased entry.score) 0xFFFF) 16)
  let packed2 := Nat.lor packed2 (Nat.shiftLeft entry.depth 32)
  let packed2 := Nat.lor packed2 (Nat.shiftLeft (nodeTypeBits entry.node_type) 40)
  let packed2 := Nat.lor packed2 (Nat.shiftLeft entry.age 42)
  (packed1, packed2)

/-- The move decoded by `unpack_entry` from nonzero move bits. -/
def unpackMove (move_bits : Nat) : Option Move :=
  match Square.from_index (Nat.land (Nat.shiftRight move_bits 10) 0x3F),
      Square.from_index (Nat.land (Nat.shiftRight move_bits 4) 0x3F) with
  | some from', some to' =>
    let promo : Option PieceType :=
      bif (Nat.land move_bits 0xF).beq 1 then some PieceType.Queen
      else bif (Nat.land move_bits 0xF).beq 2 then some PieceType.Rook
      else bif (Nat.land move_bits 0xF).beq 3 then some PieceType.Bishop
      else bif (Nat.land move_bits 0xF).beq 4 then some PieceType.Knight
      else none
    match promo with
    | some p => some (Move.new_promotion from' to' p)
    | none => some (Move.new from' to')
  | _, _ => none

/-- `TranspositionTable::unpack_entry`; the `Square::from_index(..).unwrap()`
calls cannot fail on 6-bit fields, but the `Option` they produce is kept and
`unpackMove` returns `none` only for zero move bits, as the source does. -/
def unpack_entry (packed1 packed2 : Nat) : Option TranspositionEntry :=
  let move_bits := Nat.land packed2 0xFFFF
  let best_move : Option (Option Move) :=
    bif move_bits.beq 0 then some none
    else
      match unpackMove move_bits with
      | some mv => some (some mv)
      | none => none
  match best_move with
  | none => none
  | some best_move =>
    let score_bits := Nat.land (Nat.shiftRight packed2 16) 0xFFFF
    let score : Int := (score_bits : Int) - 32768
    let depth := Nat.land (Nat.shiftRight packed2 32) 0xFF
    let node_type :=
      bif (Nat.land (Nat.shiftRight packed2 40) 0x3).beq 0 then NodeType.Exact
      else bif (Nat.land (Nat.shiftRight packed2 40) 0x3).beq 1 then NodeType.LowerBound
      else bif (Nat.land (Nat.shiftRight packed2 40) 0x3).beq 2 then NodeType.UpperBound
      else NodeType.Exact
    let age := Nat.land (Nat.shiftRight packed2 42) 0xFF
    some ⟨packed1, best_move, score, depth, node_type, age⟩

/-- `TranspositionTable::store`: packs the entry (with the current generation
as its age) into the slot indexed by `(hash & size_mask) * 2`. -/
def TranspositionTable.store (t : TranspositionTable) (hash : Nat)
    (best_move : Option Move) (score : Int) (depth : Nat) (node_type : NodeType) :
    TranspositionTable :=
  let index := Nat.mul (Nat.land hash t.size_mask) 2
  let entry : TranspositionEntry := ⟨hash, best_move, score, depth, node_type, t.generation⟩
  let packed := pack_entry entry
  { t with entries := fun i =>
      bif i.beq index then packed.1
      else bif i.beq (Nat.add index 1) then packed.2
      else t.entries i }

/-- `TranspositionTable::probe`: unpacks the indexed slot and returns the
entry only when the stored hash word equals the query hash. -/
def TranspositionTable.probe (t : TranspositionTable) (hash : Nat) :
    Option TranspositionEntry :=
  let index := Nat.mul (Nat.land hash t.size_mask) 2
  let packed1 := t.entries index
  let packed2 := t.entries (Nat.add index 1)
  match unpack_entry packed1 packed2 with
  | none => none
  | some entry => bif Nat.beq entry.hash hash then some entry else none

/-- `TranspositionTable::clear`: zeroes every word and resets the generation. -/
def TranspositionTable.clear (t : TranspositionTable) : TranspositionTable :=
  { t with entries := fun _ => 0, generation := 0 }

/-- `TranspositionTable::new_search`: `generation.wrapping_add(1)` on a `u8`. -/
def TranspositionTable.new_search (t : TranspositionTable) : TranspositionTable :=
  { t with generation := Nat.mod (Nat.add t.generation 1) 256 }

/-! ### Static evaluation (`evaluation.rs`)

Scores are `i32` values, modelled as `Int` (no intermediate here can leave
the `i32` range: piece values are at most 900 and at most 32 pieces and a few
bonuses are summed). -/

/-- The material loop of `evaluate_material` over the indices `i`, `i+1`, ...
with the given amount of fuel. -/
def evaluateMaterialAux (state : GameState) (color : Color) (fuel : Nat) :
    Nat → Int → Int :=
  Nat.rec (motive := fun _ => Nat → Int → Int) (fun _ material => material)
    (fun _ ih i material =>
      ih (Nat.add i 1)
        (match Square.from_index i with
         | some square =>
           match state.board.piece_at square with
           | some piece =>
             bif piece.color.beq color then material + (piece.piece_type.value : Int)
             else material
           | none => material
         | none => material))
    fuel

/-- `evaluate_material`: summed piece values of the color. -/
def evaluate_material (state : GameState) (color : Color) : Int :=
  evaluateMaterialAux state color 64 0 0

/-- The central squares d4, e4, d5, e5 (`CENTER_SQUARES`). -/
def CENTER_SQUARES : List Nat := [27, 28, 35, 36]

/-- The sixteen extended-center squares c3..f3, c4..f4, c5..f5, c6..f6
(`EXTENDED_CENTER`). -/
def EXTENDED_CENTER : List Nat :=
  [18, 19, 20, 21, 26, 27, 28, 29, 34, 35, 36, 37, 42, 43, 44, 45]

/-- The inner-center bonus of `evaluate_center_control`: 15 for a pawn, 20
for a knight, 10 for a bishop and 5 for every other kind (the `_ => 5` arm). -/
def centerBonus : PieceType → Int
  | PieceType.Pawn => 15
  | PieceType.Knight => 20
  | PieceType.Bishop => 10
  | _ => 5

/-- The first loop of `evaluate_center_control`, over `CENTER_SQUARES`. -/
def centerLoop (state : GameState) (color : Color) (idxs : List Nat) : Int → Int :=
  List.rec (motive := fun _ => Int → Int) (fun score => score)
    (fun idx _ ih score =>
      ih (match Square.from_index idx with
          | some square =>
            match state.board.piece_at square with
            | some piece =>
              bif piece.color.beq color then score + centerBonus piece.piece_type
              else score
            | none => score
          | none => score))
    idxs

/-- The second loop of `evaluate_center_control`, over `EXTENDED_CENTER`:
`+5` only for the color's pawns. -/
def extendedCenterLoop (state : GameState) (color : Color) (idxs : List Nat) :
    Int → Int :=
  List.rec (motive := fun _ => Int → Int) (fun score => score)
    (fun idx _ ih score =>
      ih (match Square.from_index idx with
          | some square =>
            match state.board.piece_at square with
            | some piece =>
              bif piece.color.beq color && piece.piece_type.beq PieceType.Pawn then
                score + 5
              else score
            | none => score
          | none => score))
    idxs

/-- `evaluate_center_control`. -/
def evaluate_center_control (state : GameState) (color : Color) : Int :=
  extendedCenterLoop state color EXTENDED_CENTER
    (centerLoop state color CENTER_SQUARES 0)

/-- `PAWN_TABLE` (rank-major, rank 0 = first rank, White's perspective). -/
def PAWN_TABLE : List (List Int) :=
  [[0, 0, 0, 0, 0, 0, 0, 0],
   [50, 50, 50, 50, 50, 50, 50, 50],
   [10, 10, 20, 30, 30, 20, 10, 10],
   [5, 5, 10, 25, 25, 10, 5, 5],
   [0, 0, 0, 20, 20, 0, 0, 0],
   [5, -5, -10, 0, 0, -10, -5, 5],
   [5, 10, 10, -20, -20, 10, 10, 5],
   [0, 0, 0, 0, 0, 0, 0, 0]]

/-- `KNIGHT_TABLE`. -/
def KNIGHT_TABLE : List (List Int) :=
  [[-50, -40, -30, -30, -30, -30, -40, -50],
   [-40, -20, 0, 0, 0, 0, -20, -40],
   [-30, 0, 10, 15, 15, 10, 0, -30],
   [-30, 5, 15, 20, 20, 15, 5, -30],
   [-30, 0, 15, 20, 20, 15, 0, -30],
   [-30, 5, 10, 15, 15, 10, 5, -30],
   [-40, -20, 0, 5, 5, 0, -20, -40],
   [-50, -40, -30, -30, -30, -30, -40, -50]]

/-- `BISHOP_TABLE`. -/
def BISHOP_TABLE : List (List Int) :=
  [[-20, -10, -10, -10, -10, -10, -10, -20],
   [-10, 0, 0, 0, 0, 0, 0, -10],
   [-10, 0, 5, 10, 10, 5, 0, -10],
   [-10, 5, 5, 10, 10, 5, 5, -10],
   [-10, 0, 10, 10, 10, 10, 0, -10],
   [-10, 10, 10, 10, 10, 10, 10, -10],
   [-10, 5, 0, 0, 0, 0, 5, -10],
   [-20, -10, -10, -10, -10, -10, -10, -20]]

/-- `ROOK_TABLE`. -/
def ROOK_TABLE : List (List Int) :=
  [[0, 0, 0, 0, 0, 0, 0, 0],
   [5, 10, 10, 10, 10, 10, 10, 5],
   [-5, 0, 0, 0, 0, 0, 0, -5],
   [-5, 0, 0, 0, 0, 0, 0, -5],
   [-5, 0, 0, 0, 0, 0, 0, -5],
   [-5, 0, 0, 0, 0, 0, 0, -5],
   [-5, 0, 0, 0, 0, 0, 0, -5],
   [0, 0, 0, 5, 5, 0, 0, 0]]

/-- `QUEEN_TABLE`. -/
def QUEEN_TABLE : List (List Int) :=
  [[-20, -10, -10, -5, -5, -10, -10, -20],
   [-10, 0, 0, 0, 0, 0, 0, -10],
   [-10, 0, 5, 5, 5, 5, 0, -10],
   [-5, 0, 5, 5, 5, 5, 0, -5],
   [0, 0, 5, 5, 5, 5, 0, -5],
   [-10, 5, 5, 5, 5, 5, 0, -10],
   [-10, 0, 5, 0, 0, 0, 0, -10],
   [-20, -10, -10, -5, -5, -10, -10, -20]]

/-- `KING_TABLE`. -/
def KING_TABLE : List (List Int) :=
  [[-30, -40, -40, -50, -50, -40, -40, -30],
   [-30, -40, -40, -50, -50, -40, -40, -30],
   [-30, -40, -40, -50, -50, -40, -40, -30],
   [-30, -40, -40, -50, -50, -40, -40, -30],
   [-20, -30, -30, -40, -40, -30, -30, -20],
   [-10, -20, -20, -20, -20, -20, -20, -10],
   [20, 20, 0, 0, 0, 0, 20, 20],
   [20, 30, 10, 0, 0, 10, 30, 20]]

/-- `piece_square_value`: table lookup at the (mirrored for Black) rank and
the file. -/
def piece_square_value (piece_type : PieceType) (square : Square) (color : Color) :
    Int :=
  let rank := square.rank.index
  let file := square.file.index
  let rank_idx :=
    match color with
    | Color.White => rank
    | Color.Black => Nat.sub 7 rank
  let table :=
    match piece_type with
    | PieceType.Pawn => PAWN_TABLE
    | PieceType.Knight => KNIGHT_TABLE
    | PieceType.Bishop => BISHOP_TABLE
    | PieceType.Rook => ROOK_TABLE
    | PieceType.Queen => QUEEN_TABLE
    | PieceType.King => KING_TABLE
  listGetD (listGetD table rank_idx []) file 0

/-- The loop of `evaluate_piece_positions` over the indices. -/
def evaluatePiecePositionsAux (state : GameState) (color : Color) (fuel : Nat) :
    Nat → Int → Int :=
  Nat.rec (motive := fun _ => Nat → Int → Int) (fun _ score => score)
    (fun _ ih i score =>
      ih (Nat.add i 1)
        (match Square.from_index i with
         | some square =>
           match state.board.piece_at square with
           | some piece =>
             bif piece.color.beq color then
               score + piece_square_value piece.piece_type square color
             else score
           | none => score
         | none => score))
    fuel

/-- `evaluate_piece_positions`. -/
def evaluate_piece_positions (state : GameState) (color : Color) : Int :=
  evaluatePiecePositionsAux state color 64 0 0

/-- `evaluate_position`: center control plus piece-square bonuses. -/
def evaluate_position (state : GameState) (color : Color) : Int :=
  evaluate_center_control state color + evaluate_piece_positions state color

/-- `evaluate_color`: material plus positional score. -/
def evaluate_color (state : GameState) (color : Color) : Int :=
  evaluate_material state color + evaluate_position state color

/-- `evaluate_absolute`: White's score minus Black's. -/
def evaluate_absolute (state : GameState) : Int :=
  evaluate_color state Color.White - evaluate_color state Color.Black

/-- `evaluate`: `evaluate_absolute` seen from the side to move. -/
def evaluate (state : GameState) : Int :=
  let white_eval := evaluate_color state Color.White
  let black_eval := evaluate_color state Color.Black
  let raw_eval := white_eval - black_eval
  match state.turn with
  | Color.White => raw_eval
  | Color.Black => -raw_eval

/-- The spec's `swap_stm`: the same position with only the side-to-move field
flipped. -/
def swap_stm (state : GameState) : GameState :=
  { state with turn := state.turn.opponent }

/-! ### Search time allocation (`agents/search.rs`, `allocate_time`)

`Duration`s are `Nat` milliseconds.  `allocate_time` returns
`Option (Option Nat)`: the outer `none` models the division-by-zero panic
(`moves_to_go` given as 0), `some none` the early `?` returns, and
`some (some t)` a computed allocation.  The `u64` products are reduced
`% 2^64` exactly where the Rust multiplication can wrap. -/

/-- `SearchLimits` (the search-relevant subset used by `allocate_time`;
durations in milliseconds). -/
structure SearchLimits where
  max_depth : Option Nat
  move_time : Option Nat
  nodes : Option Nat
  white_time : Option Nat
  black_time : Option Nat
  white_increment : Option Nat
  black_increment : Option Nat
  moves_to_go : Option Nat
deriving DecidableEq, Repr

/-- `SearchLimits::infinite`-style empty limits, as a base to build tests. -/
def SearchLimits.none_set : SearchLimits :=
  ⟨none, none, none, none, none, none, none, none⟩

/-- `allocate_time`. -/
def allocate_time (limits : SearchLimits) (state : GameState) :
    Option (Option Nat) :=
  -- If explicit move time is set, use it
  match limits.move_time with
  | some move_time => some (some move_time)
  | none =>
    -- Get time for the side to move; the `?` returns `None`
    let our : Option (Nat × Nat) :=
      match state.side_to_move with
      | Color.White =>
        match limits.white_time with
        | some t => some (t, limits.white_increment.getD 0)
        | none => none
      | Color.Black =>
        match limits.black_time with
        | some t => some (t, limits.black_increment.getD 0)
        | none => none
    match our with
    | none => some none
    | some (our_time_ms, our_inc_ms) =>
      -- Estimate moves remaining in the game
      let moves_left :=
        match limits.moves_to_go with
        | some mtg => mtg
        | none =>
          bif (Nat.ble 1 state.fullmove_number) && (Nat.ble state.fullmove_number 10) then 30
          else bif (Nat.ble 11 state.fullmove_number) && (Nat.ble state.fullmove_number 30) then 20
          else 10
      -- `our_time_ms / moves_left` panics when `moves_left` is zero
      bif moves_left.beq 0 then none
      else
        let base_time := Nat.div our_time_ms moves_left
        let increment_bonus := Nat.div (Nat.mod (Nat.mul our_inc_ms 8) (2 ^ 64)) 10
        let max_time := Nat.div (Nat.mod (Nat.mul our_time_ms 95) (2 ^ 64)) 100
        let allocated := min (Nat.mod (Nat.add base_time increment_bonus) (2 ^ 64)) max_time
        let final_time := max allocated 50
        some (some final_time)

/-! ### Positions used by the theorems below -/

/-- The piece placement of the Kiwipete position
(`r3k2r/p1ppqpb1/bn2pnp1/3PN3/1p2P3/2N2Q1p/PPPBBPPP/R3K2R`), square by
square as `positions::KIWIPETE` parses. -/
def kiwiPlacement : List (Nat × Piece) :=
  [(0, ⟨PieceType.Rook, Color.White⟩), (4, ⟨PieceType.King, Color.White⟩),
   (7, ⟨PieceType.Rook, Color.White⟩),
   (8, ⟨PieceType.Pawn, Color.White⟩), (9, ⟨PieceType.Pawn, Color.White⟩),
   (10, ⟨PieceType.Pawn, Color.White⟩), (11, ⟨PieceType.Bishop, Color.White⟩),
   (12, ⟨PieceType.Bishop, Color.White⟩), (13, ⟨PieceType.Pawn, Color.White⟩),
   (14, ⟨PieceType.Pawn, Color.White⟩), (15, ⟨PieceType.Pawn, Color.White⟩),
   (18, ⟨PieceType.Knight, Color.White⟩), (21, ⟨PieceType.Queen, Color.White⟩),
   (23, ⟨PieceType.Pawn, Color.Black⟩),
   (25, ⟨PieceType.Pawn, Color.Black⟩), (28, ⟨PieceType.Pawn, Color.White⟩),
   (35, ⟨PieceType.Pawn, Color.White⟩), (36, ⟨PieceType.Knight, Color.White⟩),
   (40, ⟨PieceType.Bishop, Color.Black⟩), (41, ⟨PieceType.Knight, Color.Black⟩),
   (44, ⟨PieceType.Pawn, Color.Black⟩), (45, ⟨PieceType.Knight, Color.Black⟩),
   (46, ⟨PieceType.Pawn, Color.Black⟩),
   (48, ⟨PieceType.Pawn, Color.Black⟩), (50, ⟨PieceType.Pawn, Color.Black⟩),
   (51, ⟨PieceType.Pawn, Color.Black⟩), (52, ⟨PieceType.Queen, Color.Black⟩),
   (53, ⟨PieceType.Pawn, Color.Black⟩), (54, ⟨PieceType.Bishop, Color.Black⟩),
   (56, ⟨PieceType.Rook, Color.Black⟩), (60, ⟨PieceType.King, Color.Black⟩),
   (63, ⟨PieceType.Rook, Color.Black⟩)]

/-- The Kiwipete mailbox board. -/
def kiwiBoard : Board := Board.empty.place kiwiPlacement

/-- The Kiwipete game state
(`r3k2r/p1ppqpb1/bn2pnp1/3PN3/1p2P3/2N2Q1p/PPPBBPPP/R3K2R w KQkq - 0 1`):
White to move, all castling rights, no en passant target. -/
def kiwipete : GameState :=
  ⟨⟨kiwiBoard, BitBoardSet.from_board kiwiBoard⟩, Color.White,
   CastlingRights.all, none, 0, 1⟩

/-- Kiwipete after 1. g2g4 (a double pawn push, en passant target g3) and the
reply e8g8 (Black castles kingside). -/
def kiwiAfterCastle : Option GameState :=
  match kiwipete.apply_move (Move.new ⟨14⟩ ⟨30⟩) with
  | none => none
  | some s1 => s1.apply_move (Move.new ⟨60⟩ ⟨62⟩)

/-- A small castling position: White Ke1 and Rh1 with the kingside right,
Black Ke8 and a pawn on a5 that has just double-pushed (en passant target
a6), White to move. -/
def castleEpPos : GameState :=
  ⟨⟨Board.empty.place [(4, ⟨PieceType.King, Color.White⟩),
      (7, ⟨PieceType.Rook, Color.White⟩), (60, ⟨PieceType.King, Color.Black⟩),
      (32, ⟨PieceType.Pawn, Color.Black⟩)],
    BitBoardSet.from_board (Board.empty.place
      [(4, ⟨PieceType.King, Color.White⟩), (7, ⟨PieceType.Rook, Color.White⟩),
       (60, ⟨PieceType.King, Color.Black⟩), (32, ⟨PieceType.Pawn, Color.Black⟩)])⟩,
   Color.White, ⟨⟨true, false⟩, SideCastlingRights.none⟩, some ⟨40⟩, 0, 2⟩

/-- A minimal two-kings position (White Ke1, Black Ke8, no castling rights),
White to move: used to instantiate the generic theorems cheaply. -/
def kingsBoard : Board :=
  Board.empty.place [(4, ⟨PieceType.King, Color.White⟩),
    (60, ⟨PieceType.King, Color.Black⟩)]

/-- The two-kings game state. -/
def kingsOnly : GameState :=
  ⟨⟨kingsBoard, BitBoardSet.from_board kingsBoard⟩, Color.White,
   CastlingRights.none, none, 0, 1⟩

/-! ### Spec-side definitions

These definitions follow the words of spec sentences (or of amended claim
statements), to be compared with the definitions translated from the source
code above. -/

/-- The inner-center bonus as the claim words it: 15 for a pawn, 20 for a
knight, 10 for a bishop, and 5 for each of the three remaining kinds, named
one by one (no catch-all arm). -/
def centerBonusSpec : PieceType → Int
  | PieceType.Pawn => 15
  | PieceType.Knight => 20
  | PieceType.Bishop => 10
  | PieceType.Rook => 5
  | PieceType.Queen => 5
  | PieceType.King => 5

/-- The inner-center bonus a single square contributes for `color`, as the
claim describes it: the piece's `centerBonusSpec` when the square holds a
piece of the color, 0 otherwise. -/
def centerSquareSpec (state : GameState) (color : Color) (idx : Nat) : Int :=
  match Square.from_index idx with
  | some square =>
    match state.board.piece_at square with
    | some piece =>
      if piece.color = color then centerBonusSpec piece.piece_type else 0
    | none => 0
  | none => 0

/-- The extended-center bonus a single square contributes: 5 exactly for a
pawn of the color. -/
def extendedSquareSpec (state : GameState) (color : Color) (idx : Nat) : Int :=
  match Square.from_index idx with
  | some square =>
    match state.board.piece_at square with
    | some piece =>
      if piece.color = color ∧ piece.piece_type = PieceType.Pawn then 5 else 0
    | none => 0
  | none => 0

/-- The claim's reading of the whole center-control bonus: the sum of the
per-square inner bonuses over d4, e4, d5, e5 plus the sum of the per-square
pawn bonuses over the sixteen extended-center squares. -/
def centerControlSpec (state : GameState) (color : Color) : Int :=
  (CENTER_SQUARES.map (centerSquareSpec state color)).sum +
  (EXTENDED_CENTER.map (extendedSquareSpec state color)).sum

/-- The moves-left estimate of the amended C8 statement: `moves_to_go` when
given, else 30 for fullmove numbers 1..=10, 20 for 11..=30, and 10 otherwise
(the fullmove number 0 included). -/
def movesLeftSpec (limits : SearchLimits) (state : GameState) : Nat :=
  match limits.moves_to_go with
  | some mtg => mtg
  | none =>
    if 1 ≤ state.fullmove_number ∧ state.fullmove_number ≤ 10 then 30
    else if 11 ≤ state.fullmove_number ∧ state.fullmove_number ≤ 30 then 20
    else 10

/-- The legality filter as the claim states it: the moves of the input whose
trial successor exists and does not leave the mover's king attacked. -/
def legalSpecFilter (state : GameState) (moves : List Move) : List Move :=
  moves.filter (fun mv =>
    match state.apply_move mv with
    | none => false
    | some s2 =>
      match s2.is_side_in_check state.turn with
      | none => false
      | some check => !check)

/-- A bitboard set that has the shape `from_board` and the incremental
updates maintain: two rows of six piece boards and two occupancy words. -/
def bbShape (bs : BitBoardSet) : Prop :=
  ∃ p0 p1 p2 p3 p4 p5 q0 q1 q2 q3 q4 q5 c0 c1 : BitBoard,
    bs.pieces = [[p0, p1, p2, p3, p4, p5], [q0, q1, q2, q3, q4, q5]] ∧
    bs.color_occupancy = [c0, c1]


/-! ## Theorems -/

/-- C1: against the claim that the en passant target of `apply_move` is
`None` after any castling move, castling preserves a stale target: in
`castleEpPos` (White Ke1/Rh1, Black Ke8 and a pawn that has just
double-pushed to a5, en passant target a6), White's kingside castle e1-g1
leaves the en passant target at a6 (square 40) instead of clearing it —
`apply_castle` returns before the en-passant bookkeeping of the normal-move
branch runs. -/
theorem c1_castling_keeps_en_passant :
    (castleEpPos.apply_move (Move.new ⟨4⟩ ⟨6⟩)).map GameState.en_passant =
      some (some ⟨40⟩) := by
  rfl

/-- C2: the perft table holds at depth 1 (48 nodes) but cannot hold at depth
3 with the claimed standard value: after 1. g2-g4 (setting en passant target
g3, square 22) Black's kingside castle e8-g8 keeps that stale target (the C1
bug), and in the resulting position — a depth-2 node of the Kiwipete tree —
move generation produces the pawn move f2-g3 as an en passant capture onto a
square shown empty, a move standard chess does not allow at that point.
Counting the embedded engine's full tree by evaluation gives 97868 at depth
3, the 6 phantom en-passant captures of this shape included, not the claimed
97862. -/
theorem c2_kiwipete_depth_one_and_phantom_ep :
    perft kiwipete 1 = some 48 ∧
    kiwiAfterCastle.map GameState.en_passant = some (some ⟨22⟩) ∧
    kiwiAfterCastle.map
      (fun s2 => (generate_legal_moves s2).map
        (fun l => decide (Move.new ⟨13⟩ ⟨22⟩ ∈ l))) = some (some true) ∧
    kiwiAfterCastle.map (fun s2 => s2.board.piece_at ⟨22⟩) = some none := by
  exact ⟨rfl, rfl, rfl, rfl⟩

/-- C6: the claim says the default 16 MiB budget yields 1048576 slots (the
largest power of two with 16 bytes each fitting the budget), but
`TranspositionTable::new(16)` rounds `16 * 65536 = 2^20` — already a power
of two — up to itself and then halves it, creating 524288 slots and using
only half the byte budget. -/
theorem c6_default_table_has_halved_slots :
    (TranspositionTable.new 16).slots = 524288 := by
  rfl

/-- C5 counterexample: the pack/unpack round trip is not the identity for
every score: storing score 40000 (outside the signed 16-bit range) under
hash 1 and probing the same hash returns score −25536, the 16-bit biased
field having truncated the value. -/
theorem c5_pack_truncates_large_score :
    ((TranspositionTable.new 16).store 1 none 40000 0 NodeType.Exact).probe 1 =
      some ⟨1, none, -25536, 0, NodeType.Exact, 0⟩ ∧
    (-25536 : Int) ≠ 40000 := by
  exact ⟨rfl, by decide⟩

/-- A bitwise or with a left-shifted word is an addition when the low part
fits below the shift. -/
theorem lorLow (x y k : Nat) (hx : x < 2 ^ k) :
    Nat.lor x (Nat.shiftLeft y k) = 2 ^ k * y + x := by
  show x ||| y <<< k = 2 ^ k * y + x
  rw [Nat.shiftLeft_eq, Nat.mul_comm y, Nat.or_comm]
  exact (Nat.mul_add_lt_is_or hx y).symm

/-- Masking with an all-ones mask is a remainder. -/
theorem landMask (x n m : Nat) (hm : 2 ^ n - 1 = m) : Nat.land x m = x % 2 ^ n := by
  subst hm
  exact Nat.and_pow_two_sub_one_eq_mod x n

/-- A right shift is a division by a power of two. -/
theorem shiftRightDiv (x n : Nat) : Nat.shiftRight x n = x / 2 ^ n :=
  Nat.shiftRight_eq_div_pow x n

/-- The promotion nibble always fits in 4 bits. -/
theorem promoBits_lt (p : Option PieceType) : promoBits p < 16 := by
  rcases p with _ | pt
  · decide
  · cases pt <;> decide

/-- Closed arithmetic form of the 16 packed move bits. -/
theorem moveBits_eq (f t p : Nat) (ht : t < 64) (hp : p < 16) :
    Nat.lor (Nat.lor (Nat.shiftLeft f 10) (Nat.shiftLeft t 4)) p =
      1024 * f + 16 * t + p := by
  show ((f <<< 10) ||| (t <<< 4)) ||| p = 1024 * f + 16 * t + p
  rw [Nat.shiftLeft_eq, Nat.shiftLeft_eq]
  have h1 : f * 2 ^ 10 ||| t * 2 ^ 4 = f * 2 ^ 10 + t * 2 ^ 4 := by
    rw [Nat.mul_comm f]
    exact (Nat.mul_add_lt_is_or (by omega : t * 2 ^ 4 < 2 ^ 10) f).symm
  rw [h1]
  have h2 : f * 2 ^ 10 + t * 2 ^ 4 = 2 ^ 4 * (64 * f + t) := by ring
  rw [h2]
  rw [← Nat.mul_add_lt_is_or (by omega : p < 2 ^ 4) (64 * f + t)]
  omega

/-- Closed arithmetic form of the packed data word of `pack_entry`. -/
theorem packShape (a s d n g : Nat) (ha : a < 2 ^ 16) (hs : s < 2 ^ 16)
    (hd : d < 2 ^ 8) (hn : n < 4) :
    Nat.lor (Nat.lor (Nat.lor (Nat.lor a (Nat.shiftLeft s 16))
        (Nat.shiftLeft d 32)) (Nat.shiftLeft n 40)) (Nat.shiftLeft g 42) =
      2 ^ 42 * g + 2 ^ 40 * n + 2 ^ 32 * d + 2 ^ 16 * s + a := by
  rw [lorLow a s 16 ha]
  rw [lorLow _ d 32 (by omega)]
  rw [lorLow _ n 40 (by omega)]
  rw [lorLow _ g 42 (by omega)]
  ring

/-- `unpack_entry` on the closed arithmetic form of a packed word: every
field is recovered by remainder-and-divide extraction. -/
theorem unpack_closed (h A S d N g : Nat) (bm : Option Move)
    (hA : A < 2 ^ 16) (hS : S < 2 ^ 16) (hd : d < 2 ^ 8) (hN : N < 4)
    (hbm : (bif A.beq 0 then some none
            else match unpackMove A with
                 | some mv => some (some mv)
                 | none => none) = some bm) :
    unpack_entry h (2 ^ 42 * g + 2 ^ 40 * N + 2 ^ 32 * d + 2 ^ 16 * S + A) =
      some ⟨h, bm, (S : Int) - 32768, d,
        (bif N.beq 0 then NodeType.Exact
         else bif N.beq 1 then NodeType.LowerBound
         else bif N.beq 2 then NodeType.UpperBound
         else NodeType.Exact), g % 2 ^ 8⟩ := by
  simp only [unpack_entry]
  have hmb : Nat.land (2 ^ 42 * g + 2 ^ 40 * N + 2 ^ 32 * d + 2 ^ 16 * S + A) 0xFFFF = A := by
    rw [landMask _ 16 0xFFFF (by norm_num)]
    omega
  rw [hmb, hbm]
  have hsc : Nat.land (Nat.shiftRight
      (2 ^ 42 * g + 2 ^ 40 * N + 2 ^ 32 * d + 2 ^ 16 * S + A) 16) 0xFFFF = S := by
    rw [shiftRightDiv, landMask _ 16 0xFFFF (by norm_num)]
    omega
  have hdp : Nat.land (Nat.shiftRight
      (2 ^ 42 * g + 2 ^ 40 * N + 2 ^ 32 * d + 2 ^ 16 * S + A) 32) 0xFF = d := by
    rw [shiftRightDiv, landMask _ 8 0xFF (by norm_num)]
    omega
  have hnt : Nat.land (Nat.shiftRight
      (2 ^ 42 * g + 2 ^ 40 * N + 2 ^ 32 * d + 2 ^ 16 * S + A) 40) 0x3 = N := by
    rw [shiftRightDiv, landMask _ 2 0x3 (by norm_num)]
    omega
  have hag : Nat.land (Nat.shiftRight
      (2 ^ 42 * g + 2 ^ 40 * N + 2 ^ 32 * d + 2 ^ 16 * S + A) 42) 0xFF = g % 2 ^ 8 := by
    rw [shiftRightDiv, landMask _ 8 0xFF (by norm_num)]
    omega
  rw [hsc, hdp, hnt, hag]

/-- The pack/unpack round trip on entries whose score is in the signed
16-bit range, whose depth fits 8 bits and whose move (if any) uses on-board
squares, nonzero packed bits and a promotion the nibble can encode. -/
theorem unpack_pack (e : TranspositionEntry)
    (hs1 : -32768 ≤ e.score) (hs2 : e.score ≤ 32767) (hd : e.depth < 256)
    (hbm : e.best_move = none ∨ ∃ mv, e.best_move = some mv ∧
      mv.from'.val < 64 ∧ mv.to'.val < 64 ∧ moveBits (some mv) ≠ 0 ∧
      (mv.promotion = none ∨ mv.promotion = some PieceType.Queen ∨
       mv.promotion = some PieceType.Rook ∨ mv.promotion = some PieceType.Bishop ∨
       mv.promotion = some PieceType.Knight)) :
    ∃ a, unpack_entry (pack_entry e).1 (pack_entry e).2 =
      some ⟨e.hash, e.best_move, e.score, e.depth, e.node_type, a⟩ := by
  obtain ⟨hash, bm, score, depth, nt, age⟩ := e
  dsimp only at hs1 hs2 hd hbm ⊢
  -- the biased score fits in 16 bits
  have hsb : scoreBiased score = (score + 32768).toNat := by
    unfold scoreBiased
    rw [Int.emod_eq_of_lt (by omega) (by omega)]
  have hS : (score + 32768).toNat < 2 ^ 16 := by omega
  have hland : Nat.land (scoreBiased score) 0xFFFF = (score + 32768).toNat := by
    rw [hsb, landMask _ 16 0xFFFF (by norm_num)]
    omega
  have hN : nodeTypeBits nt < 4 := by cases nt <;> decide
  have hntd : (bif (nodeTypeBits nt).beq 0 then NodeType.Exact
      else bif (nodeTypeBits nt).beq 1 then NodeType.LowerBound
      else bif (nodeTypeBits nt).beq 2 then NodeType.UpperBound
      else NodeType.Exact) = nt := by cases nt <;> rfl
  have hscore : (((score + 32768).toNat : Int)) - 32768 = score := by omega
  rcases hbm with hnone | ⟨mv, hsome, hf, ht, hnz, hpromo⟩
  · subst hnone
    refine ⟨age % 2 ^ 8, ?_⟩
    have hpack2 : (pack_entry ⟨hash, none, score, depth, nt, age⟩).2 =
        2 ^ 42 * age + 2 ^ 40 * nodeTypeBits nt + 2 ^ 32 * depth +
          2 ^ 16 * (score + 32768).toNat + 0 := by
      show Nat.lor (Nat.lor (Nat.lor (Nat.lor (moveBits none)
          (Nat.shiftLeft (Nat.land (scoreBiased score) 0xFFFF) 16))
          (Nat.shiftLeft depth 32)) (Nat.shiftLeft (nodeTypeBits nt) 40))
          (Nat.shiftLeft age 42) = _
      rw [hland]
      exact packShape 0 _ depth _ age (by decide) hS hd hN
    have hp1 : (pack_entry ⟨hash, none, score, depth, nt, age⟩).1 = hash := rfl
    rw [hp1, hpack2,
      unpack_closed hash 0 (score + 32768).toNat depth (nodeTypeBits nt) age none
        (by decide) hS hd hN rfl, hscore, hntd]
  · subst hsome
    obtain ⟨f, t', pr⟩ := mv
    dsimp only at hf ht hnz hpromo
    have hp : promoBits pr < 16 := promoBits_lt pr
    have hA : moveBits (some ⟨f, t', pr⟩) = 1024 * f.val + 16 * t'.val + promoBits pr := by
      show Nat.lor (Nat.lor (Nat.shiftLeft f.val 10) (Nat.shiftLeft t'.val 4))
          (promoBits pr) = _
      exact moveBits_eq f.val t'.val (promoBits pr) ht hp
    have hAlt : moveBits (some ⟨f, t', pr⟩) < 2 ^ 16 := by rw [hA]; omega
    have hpack2 : (pack_entry ⟨hash, some ⟨f, t', pr⟩, score, depth, nt, age⟩).2 =
        2 ^ 42 * age + 2 ^ 40 * nodeTypeBits nt + 2 ^ 32 * depth +
          2 ^ 16 * (score + 32768).toNat + moveBits (some ⟨f, t', pr⟩) := by
      show Nat.lor (Nat.lor (Nat.lor (Nat.lor (moveBits (some ⟨f, t', pr⟩))
          (Nat.shiftLeft (Nat.land (scoreBiased score) 0xFFFF) 16))
          (Nat.shiftLeft depth 32)) (Nat.shiftLeft (nodeTypeBits nt) 40))
          (Nat.shiftLeft age 42) = _
      rw [hland]
      exact packShape _ _ depth _ age hAlt hS hd hN
    have hfrom : Nat.land (Nat.shiftRight (moveBits (some ⟨f, t', pr⟩)) 10) 0x3F = f.val := by
      rw [hA, shiftRightDiv, landMask _ 6 0x3F (by norm_num)]
      omega
    have hto : Nat.land (Nat.shiftRight (moveBits (some ⟨f, t', pr⟩)) 4) 0x3F = t'.val := by
      rw [hA, shiftRightDiv, landMask _ 6 0x3F (by norm_num)]
      omega
    have hpm : Nat.land (moveBits (some ⟨f, t', pr⟩)) 0xF = promoBits pr := by
      rw [hA, landMask _ 4 0xF (by norm_num)]
      omega
    have hsq1 : Square.from_index f.val = some f := by
      simp only [Square.from_index]
      have hb : Nat.blt f.val 64 = true := by rw [Nat.blt_eq]; exact hf
      rw [hb]
      rfl
    have hsq2 : Square.from_index t'.val = some t' := by
      simp only [Square.from_index]
      have hb : Nat.blt t'.val 64 = true := by rw [Nat.blt_eq]; exact ht
      rw [hb]
      rfl
    have hum : unpackMove (moveBits (some ⟨f, t', pr⟩)) = some ⟨f, t', pr⟩ := by
      simp only [unpackMove]
      rw [hfrom, hto, hpm, hsq1, hsq2]
      rcases hpromo with h5 | h5 | h5 | h5 | h5 <;> rw [h5] <;> rfl
    have hdec : (bif (moveBits (some ⟨f, t', pr⟩)).beq 0 then some none
        else match unpackMove (moveBits (some ⟨f, t', pr⟩)) with
             | some mv2 => some (some mv2)
             | none => none) = some (some ⟨f, t', pr⟩) := by
      have hbeq : (moveBits (some ⟨f, t', pr⟩)).beq 0 = false := by
        rw [Bool.eq_false_iff]
        intro hc
        exact hnz (Nat.eq_of_beq_eq_true hc)
      rw [hbeq, hum]
      rfl
    refine ⟨age % 2 ^ 8, ?_⟩
    have hp1 : (pack_entry ⟨hash, some ⟨f, t', pr⟩, score, depth, nt, age⟩).1 = hash := rfl
    rw [hp1, hpack2,
      unpack_closed hash (moveBits (some ⟨f, t', pr⟩)) (score + 32768).toNat depth
        (nodeTypeBits nt) age (some ⟨f, t', pr⟩) hAlt hS hd hN hdec, hscore, hntd]


/-- C5 (amended): the pack/unpack round trip restores hash, best move, score,
depth and node type whenever the score fits the signed 16-bit range, the depth
fits 8 bits and the best move (if any) has on-board squares, nonzero packed
move bits and a queen/rook/bishop/knight-or-no promotion: storing such an
entry and probing the same hash returns an entry with those five fields
unchanged. -/
theorem c5_roundtrip_in_range (t : TranspositionTable) (hash : Nat)
    (best_move : Option Move) (score : Int) (depth : Nat) (node_type : NodeType)
    (hs1 : -32768 ≤ score) (hs2 : score ≤ 32767) (hd : depth < 256)
    (hbm : best_move = none ∨ ∃ mv, best_move = some mv ∧
      mv.from'.val < 64 ∧ mv.to'.val < 64 ∧ moveBits (some mv) ≠ 0 ∧
      (mv.promotion = none ∨ mv.promotion = some PieceType.Queen ∨
       mv.promotion = some PieceType.Rook ∨ mv.promotion = some PieceType.Bishop ∨
       mv.promotion = some PieceType.Knight)) :
    ∃ e, (t.store hash best_move score depth node_type).probe hash = some e ∧
      e.hash = hash ∧ e.best_move = best_move ∧ e.score = score ∧
      e.depth = depth ∧ e.node_type = node_type := by
  obtain ⟨a, hu⟩ :=
    unpack_pack ⟨hash, best_move, score, depth, node_type, t.generation⟩ hs1 hs2 hd hbm
  refine ⟨⟨hash, best_move, score, depth, node_type, a⟩, ?_, rfl, rfl, rfl, rfl, rfl⟩
  simp only [TranspositionTable.probe, TranspositionTable.store]
  have heq1 : (Nat.mul (Nat.land hash t.size_mask) 2).beq
      (Nat.mul (Nat.land hash t.size_mask) 2) = true := Nat.beq_refl _
  have hne : (Nat.add (Nat.mul (Nat.land hash t.size_mask) 2) 1).beq
      (Nat.mul (Nat.land hash t.size_mask) 2) = false := by
    rw [Bool.eq_false_iff]
    intro hc
    have h2 : Nat.land hash t.size_mask * 2 + 1 = Nat.land hash t.size_mask * 2 :=
      Nat.eq_of_beq_eq_true hc
    omega
  have heq2 : (Nat.add (Nat.mul (Nat.land hash t.size_mask) 2) 1).beq
      (Nat.add (Nat.mul (Nat.land hash t.size_mask) 2) 1) = true := Nat.beq_refl _
  rw [heq1, hne, heq2]
  simp only [cond_true, cond_false]
  rw [hu]
  dsimp only
  have hbq : Nat.beq hash hash = true := Nat.beq_refl _
  rw [hbq]
  rfl


/-- Witness for C5 at a concrete in-range entry: hash 7, move e2e4,
score 150, depth 5, lower bound. -/
theorem c5_roundtrip_witness :
    ∃ e, ((TranspositionTable.new 16).store 7 (some (Move.new ⟨12⟩ ⟨28⟩)) 150 5
        NodeType.LowerBound).probe 7 = some e ∧
      e.hash = 7 ∧ e.best_move = some (Move.new ⟨12⟩ ⟨28⟩) ∧ e.score = 150 ∧
      e.depth = 5 ∧ e.node_type = NodeType.LowerBound :=
  c5_roundtrip_in_range (TranspositionTable.new 16) 7 (some (Move.new ⟨12⟩ ⟨28⟩)) 150 5
    NodeType.LowerBound (by decide) (by decide) (by decide)
    (Or.inr ⟨Move.new ⟨12⟩ ⟨28⟩, rfl, by decide, by decide, by decide, Or.inl rfl⟩)


/-- C8 counterexample: with White's clock at 3000 ms, no increment and
fullmove number 0 (as a FEN can supply), `allocate_time` falls into the
`_ => 10` arm — the Rust ranges start at 1 — and allocates
`max(50, min(3000/10, 2850)) = 300` ms, while the claim's estimate
(30 moves left whenever the fullmove number is at most 10) predicts
`max(50, min(3000/30, 2850)) = 100` ms; and a given `movestogo` of 0 makes
the function panic (division by zero) instead of returning any allocation. -/
theorem c8_fullmove_zero_divergence :
    allocate_time { SearchLimits.none_set with white_time := some 3000 }
        { kingsOnly with fullmove_number := 0 } = some (some 300) ∧
    (300 : Nat) ≠
      Nat.max 50 (Nat.min (Nat.add (Nat.div 3000 30) 0) (Nat.div (Nat.mul 95 3000) 100)) ∧
    allocate_time
        { SearchLimits.none_set with white_time := some 3000, moves_to_go := some 0 }
        kingsOnly = none := by
  exact ⟨rfl, by decide, rfl⟩

/-- C10: on a freshly constructed table every word is zero, so probing hash 0
returns the all-zero slot decoded as a real entry — hash 0, no best move,
score −32768 (the bias read back from a zero score field), depth 0, `Exact` —
rather than `None`; the same holds after `clear`; and probing any nonzero
hash that was never stored finds the zero hash word, fails the collision
check, and returns `None`. -/
theorem c10_zeroed_probe :
    (TranspositionTable.new 16).probe 0 =
      some ⟨0, none, -32768, 0, NodeType.Exact, 0⟩ ∧
    (((TranspositionTable.new 16).store 77 none 0 3 NodeType.LowerBound).clear).probe 0 =
      some ⟨0, none, -32768, 0, NodeType.Exact, 0⟩ ∧
    ∀ h : Nat, h ≠ 0 → (TranspositionTable.new 16).probe h = none := by
  refine ⟨rfl, rfl, fun h hne => ?_⟩
  match h with
  | 0 => exact absurd rfl hne
  | Nat.succ m =>
    have he : ∀ x : Nat, (TranspositionTable.new 16).entries x = 0 := fun _ => rfl
    simp only [TranspositionTable.probe, he]
    rfl

/-- Witness for C10 at the concrete unstored hash 5. -/
theorem c10_zeroed_probe_witness :
    (TranspositionTable.new 16).probe 5 = none :=
  c10_zeroed_probe.2.2 5 (by decide)

/-- C7: the evaluation is the White-minus-Black score seen from the side to
move — `evaluate_absolute` when White is to move, its negation when Black is
to move — and flipping only the side to move negates it. -/
theorem c7_evaluate_perspective :
    ∀ s : GameState,
      evaluate s = (match s.turn with
        | Color.White => evaluate_absolute s
        | Color.Black => -evaluate_absolute s) ∧
      evaluate s = -evaluate (swap_stm s) := by
  intro s
  obtain ⟨b, t, c, e, hm, f⟩ := s
  cases t
  case White =>
    refine ⟨rfl, ?_⟩
    have h : evaluate (swap_stm ⟨b, Color.White, c, e, hm, f⟩) =
        -(evaluate_color ⟨b, Color.White, c, e, hm, f⟩ Color.White -
          evaluate_color ⟨b, Color.White, c, e, hm, f⟩ Color.Black) := rfl
    rw [h, Int.neg_neg]
    rfl
  case Black =>
    refine ⟨rfl, ?_⟩
    have h : evaluate (swap_stm ⟨b, Color.Black, c, e, hm, f⟩) =
        evaluate_color ⟨b, Color.Black, c, e, hm, f⟩ Color.White -
          evaluate_color ⟨b, Color.Black, c, e, hm, f⟩ Color.Black := rfl
    rw [h]
    rfl

/-- Boolean color equality agrees with propositional equality. -/
theorem colorBeq_iff (a b : Color) : Color.beq a b = true ↔ a = b := by
  cases a <;> cases b <;> decide

/-- Boolean piece-type equality agrees with propositional equality. -/
theorem pieceTypeBeq_iff (a b : PieceType) : PieceType.beq a b = true ↔ a = b := by
  cases a <;> cases b <;> decide

/-- Boolean color equality is reflexive. -/
theorem colorBeq_refl (a : Color) : Color.beq a a = true := by
  cases a <;> rfl

/-- Boolean piece-type equality is reflexive. -/
theorem pieceTypeBeq_refl (a : PieceType) : PieceType.beq a a = true := by
  cases a <;> rfl

/-- The code's inner-center bonus table equals the claim's, arm by arm. -/
theorem centerBonus_eq_spec (pt : PieceType) : centerBonus pt = centerBonusSpec pt := by
  cases pt <;> rfl

/-- The first center-control loop accumulates exactly the per-square inner
bonuses. -/
theorem centerLoop_eq (state : GameState) (color : Color) :
    ∀ (idxs : List Nat) (score : Int),
      centerLoop state color idxs score =
        score + (idxs.map (centerSquareSpec state color)).sum := by
  intro idxs
  induction idxs with
  | nil => intro score; simp [centerLoop]
  | cons i rest ih =>
    intro score
    have hcons : centerLoop state color (i :: rest) score =
        centerLoop state color rest
          (match Square.from_index i with
           | some square =>
             match state.board.piece_at square with
             | some piece =>
               bif piece.color.beq color then score + centerBonus piece.piece_type
               else score
             | none => score
           | none => score) := rfl
    rw [hcons, ih]
    have hsq : (match Square.from_index i with
        | some square =>
          match state.board.piece_at square with
          | some piece =>
            bif piece.color.beq color then score + centerBonus piece.piece_type
            else score
          | none => score
        | none => score) = score + centerSquareSpec state color i := by
      rcases hfi : Square.from_index i with _ | sq
      · simp [centerSquareSpec, hfi]
      · rcases hp : state.board.piece_at sq with _ | piece
        · simp [centerSquareSpec, hfi, hp]
        · rcases hcb : Color.beq piece.color color with _ | _
          · have hne : ¬ piece.color = color := by
              intro hh
              rw [hh] at hcb
              cases color <;> simp [Color.beq, Color.toIdx] at hcb
            simp [centerSquareSpec, hfi, hp, hcb, hne]
          · have heq : piece.color = color := (colorBeq_iff _ _).mp hcb
            simp [centerSquareSpec, hfi, hp, hcb, heq, centerBonus_eq_spec,
              colorBeq_refl]
    rw [hsq]
    simp [List.sum_cons]
    ring

/-- The second center-control loop accumulates exactly the per-square pawn
bonuses. -/
theorem extendedCenterLoop_eq (state : GameState) (color : Color) :
    ∀ (idxs : List Nat) (score : Int),
      extendedCenterLoop state color idxs score =
        score + (idxs.map (extendedSquareSpec state color)).sum := by
  intro idxs
  induction idxs with
  | nil => intro score; simp [extendedCenterLoop]
  | cons i rest ih =>
    intro score
    have hcons : extendedCenterLoop state color (i :: rest) score =
        extendedCenterLoop state color rest
          (match Square.from_index i with
           | some square =>
             match state.board.piece_at square with
             | some piece =>
               bif piece.color.beq color && piece.piece_type.beq PieceType.Pawn then
                 score + 5
               else score
             | none => score
           | none => score) := rfl
    rw [hcons, ih]
    have hsq : (match Square.from_index i with
        | some square =>
          match state.board.piece_at square with
          | some piece =>
            bif piece.color.beq color && piece.piece_type.beq PieceType.Pawn then
              score + 5
            else score
          | none => score
        | none => score) = score + extendedSquareSpec state color i := by
      rcases hfi : Square.from_index i with _ | sq
      · simp [extendedSquareSpec, hfi]
      · rcases hp : state.board.piece_at sq with _ | piece
        · simp [extendedSquareSpec, hfi, hp]
        · rcases hcb : Color.beq piece.color color && PieceType.beq piece.piece_type PieceType.Pawn
            with _ | _
          · have hne : ¬ (piece.color = color ∧ piece.piece_type = PieceType.Pawn) := by
              rintro ⟨h1, h2⟩
              rw [(colorBeq_iff _ _).mpr h1, (pieceTypeBeq_iff _ _).mpr h2] at hcb
              cases hcb
            simp [extendedSquareSpec, hfi, hp, hcb, hne]
          · rw [Bool.and_eq_true] at hcb
            have h1 := (colorBeq_iff _ _).mp hcb.1
            have h2 := (pieceTypeBeq_iff _ _).mp hcb.2
            simp [extendedSquareSpec, hfi, hp, h1, h2, colorBeq_refl,
              pieceTypeBeq_refl]
    rw [hsq]
    simp [List.sum_cons]
    ring

/-- C9: the static evaluation's center-control term is exactly the claim's
description: on d4, e4, d5 and e5 every piece of the evaluated color scores
15 as a pawn, 20 as a knight, 10 as a bishop and 5 as a rook, queen or king
(the code's `_ => 5` arm), while the extended-center +5 applies only to
pawns. -/
theorem c9_center_control_spec :
    ∀ (state : GameState) (color : Color),
      evaluate_center_control state color = centerControlSpec state color := by
  intro s c
  unfold evaluate_center_control centerControlSpec
  rw [extendedCenterLoop_eq, centerLoop_eq]
  ring

/-- The moves-left expression inside `allocate_time` equals the amended
spec-side estimate. -/
theorem movesLeft_code_eq (limits : SearchLimits) (state : GameState) :
    (match limits.moves_to_go with
     | some mtg => mtg
     | none =>
       bif (Nat.ble 1 state.fullmove_number) && (Nat.ble state.fullmove_number 10) then 30
       else bif (Nat.ble 11 state.fullmove_number) && (Nat.ble state.fullmove_number 30) then 20
       else 10) = movesLeftSpec limits state := by
  rcases hmtg : limits.moves_to_go with _ | mtg
  · unfold movesLeftSpec
    rw [hmtg]
    by_cases h1 : 1 ≤ state.fullmove_number ∧ state.fullmove_number ≤ 10
    · have b1 : Nat.ble 1 state.fullmove_number = true := Nat.ble_eq.mpr h1.1
      have b2 : Nat.ble state.fullmove_number 10 = true := Nat.ble_eq.mpr h1.2
      simp [b1, b2, h1]
    · have hb : (Nat.ble 1 state.fullmove_number && Nat.ble state.fullmove_number 10) = false := by
        rcases Nat.lt_or_ge state.fullmove_number 1 with hlt | hge
        · have : Nat.ble 1 state.fullmove_number = false := by
            rw [Bool.eq_false_iff]
            intro hc
            exact absurd (Nat.ble_eq.mp hc) (Nat.not_le.mpr hlt)
          simp [this]
        · have h10 : ¬ state.fullmove_number ≤ 10 := fun hc => h1 ⟨hge, hc⟩
          have : Nat.ble state.fullmove_number 10 = false := by
            rw [Bool.eq_false_iff]
            intro hc
            exact h10 (Nat.ble_eq.mp hc)
          simp [this]
      rw [hb]
      by_cases h2 : 11 ≤ state.fullmove_number ∧ state.fullmove_number ≤ 30
      · have b1 : Nat.ble 11 state.fullmove_number = true := Nat.ble_eq.mpr h2.1
        have b2 : Nat.ble state.fullmove_number 30 = true := Nat.ble_eq.mpr h2.2
        simp [b1, b2, h1, h2]
      · have hb2 : (Nat.ble 11 state.fullmove_number && Nat.ble state.fullmove_number 30) = false := by
          rcases Nat.lt_or_ge state.fullmove_number 11 with hlt | hge
          · have : Nat.ble 11 state.fullmove_number = false := by
              rw [Bool.eq_false_iff]
              intro hc
              exact absurd (Nat.ble_eq.mp hc) (Nat.not_le.mpr hlt)
            simp [this]
          · have h30 : ¬ state.fullmove_number ≤ 30 := fun hc => h2 ⟨hge, hc⟩
            have : Nat.ble state.fullmove_number 30 = false := by
              rw [Bool.eq_false_iff]
              intro hc
              exact h30 (Nat.ble_eq.mp hc)
            simp [this]
        rw [hb2]
        simp [h1, h2]
  · unfold movesLeftSpec
    rw [hmtg]

/-- C8 (amended): when no explicit move time is set, the side to move has a
clock of `clock` ms and increment `inc` ms (0 when absent), the moves-left
estimate — `movestogo` when given, else 30 for fullmove numbers 1..=10, 20
for 11..=30 and 10 otherwise — is nonzero, and neither `inc * 8` nor
`clock * 95` wraps a `u64`, `allocate_time` returns exactly
`max(50, min(clock / moves_left + inc * 8 / 10, clock * 95 / 100))` ms. -/
theorem c8_allocation_formula :
    ∀ (limits : SearchLimits) (state : GameState) (clock inc : Nat),
      limits.move_time = none →
      ((state.side_to_move = Color.White ∧ limits.white_time = some clock ∧
          inc = limits.white_increment.getD 0) ∨
       (state.side_to_move = Color.Black ∧ limits.black_time = some clock ∧
          inc = limits.black_increment.getD 0)) →
      1 ≤ movesLeftSpec limits state →
      Nat.mul inc 8 < 2 ^ 64 →
      Nat.mul clock 95 < 2 ^ 64 →
      allocate_time limits state =
        some (some (Nat.max 50 (Nat.min
          (Nat.add (Nat.div clock (movesLeftSpec limits state))
            (Nat.div (Nat.mul inc 8) 10))
          (Nat.div (Nat.mul clock 95) 100)))) := by
  intro limits state clock inc hmt hside hml hinc hclock
  unfold allocate_time
  rw [hmt]
  have hmod1 : Nat.mod (Nat.mul inc 8) (2 ^ 64) = Nat.mul inc 8 :=
    Nat.mod_eq_of_lt hinc
  have hmod2 : Nat.mod (Nat.mul clock 95) (2 ^ 64) = Nat.mul clock 95 :=
    Nat.mod_eq_of_lt hclock
  have hsum : Nat.add (Nat.div clock (movesLeftSpec limits state))
      (Nat.div (Nat.mul inc 8) 10) < 2 ^ 64 := by
    show clock / movesLeftSpec limits state + inc * 8 / 10 < 2 ^ 64
    have hB : clock / movesLeftSpec limits state ≤ clock := Nat.div_le_self _ _
    have hinc' : inc * 8 < 2 ^ 64 := hinc
    have hclock' : clock * 95 < 2 ^ 64 := hclock
    omega
  have hml' : movesLeftSpec limits state ≠ 0 := by omega
  rcases hside with ⟨hturn, htime, hincr⟩ | ⟨hturn, htime, hincr⟩ <;>
  · rw [hturn, htime]
    dsimp only
    rw [movesLeft_code_eq]
    have hbeq : (movesLeftSpec limits state).beq 0 = false := by
      rw [Bool.eq_false_iff]
      intro hc
      exact hml' (Nat.eq_of_beq_eq_true hc)
    rw [hbeq]
    simp only [cond_false, ← hincr, hmod1, hmod2]
    have hmod3 : (Nat.add (Nat.div clock (movesLeftSpec limits state))
        (Nat.div (Nat.mul inc 8) 10)).mod (2 ^ 64) =
        Nat.add (Nat.div clock (movesLeftSpec limits state))
          (Nat.div (Nat.mul inc 8) 10) := Nat.mod_eq_of_lt hsum
    rw [hmod3, Nat.max_comm]

/-- Witness for C8 at a concrete time control: 60 s clock, 1 s increment,
the starting position (fullmove number 1, so 30 moves are assumed left). -/
theorem c8_allocation_witness :
    allocate_time
        { SearchLimits.none_set with
          white_time := some 60000
          white_increment := some 1000 } GameState.new =
      some (some (Nat.max 50 (Nat.min
        (Nat.add (Nat.div 60000 (movesLeftSpec
          { SearchLimits.none_set with
            white_time := some 60000
            white_increment := some 1000 } GameState.new))
          (Nat.div (Nat.mul 1000 8) 10))
        (Nat.div (Nat.mul 60000 95) 100)))) :=
  c8_allocation_formula _ GameState.new 60000 1000 rfl
    (Or.inl ⟨rfl, rfl, rfl⟩) (by decide) (by decide) (by decide)

/-- `filter_legal_moves`, whenever it returns a list, returns exactly the
claim's filter of its input. -/
theorem filter_legal_moves_eq_spec (state : GameState) :
    ∀ moves legal, filter_legal_moves state moves = some legal →
      legal = legalSpecFilter state moves := by
  intro moves
  induction moves with
  | nil =>
    intro legal h
    have h2 : ([] : List Move) = legal :=
      Option.some.inj (show some ([] : List Move) = some legal from h)
    rw [← h2]
    rfl
  | cons mv tl ih =>
    intro legal h
    have hstep : filter_legal_moves state (mv :: tl) =
        (match state.apply_move mv with
         | none => none
         | some new_state =>
           match new_state.is_side_in_check state.turn with
           | none => none
           | some check =>
             match filter_legal_moves state tl with
             | none => none
             | some tail => bif check then some tail else some (mv :: tail)) := rfl
    rw [hstep] at h
    cases hap : state.apply_move mv with
    | none =>
      simp only [hap] at h
      exact absurd h (by simp)
    | some s2 =>
      simp only [hap] at h
      cases hchk : s2.is_side_in_check state.turn with
      | none =>
        simp only [hchk] at h
        exact absurd h (by simp)
      | some check =>
        simp only [hchk] at h
        cases htl : filter_legal_moves state tl with
        | none =>
          simp only [htl] at h
          exact absurd h (by simp)
        | some tail =>
          simp only [htl] at h
          have htail := ih tail htl
          have hcons : legalSpecFilter state (mv :: tl) =
              bif !check then mv :: legalSpecFilter state tl
              else legalSpecFilter state tl := by
            simp only [legalSpecFilter, List.filter_cons, hap, hchk]
            cases check <;> rfl
          cases check with
          | false =>
            have h2 : mv :: tail = legal :=
              Option.some.inj
                (show some (mv :: tail) = some legal from h)
            rw [hcons, ← htail, ← h2]
            rfl
          | true =>
            have h2 : tail = legal :=
              Option.some.inj (show some tail = some legal from h)
            rw [hcons, ← htail, ← h2]
            rfl

/-- C3: whenever move generation succeeds, the legal moves are exactly the
pseudo-legal moves whose trial successor leaves the mover's king out of
check, and every returned move's successor reports the mover's side not in
check. -/
theorem c3_legal_filter_characterization (state : GameState)
    (pseudo legal : List Move)
    (hp : generate_pseudo_legal_moves state = some pseudo)
    (hl : generate_legal_moves state = some legal) :
    legal = legalSpecFilter state pseudo ∧
    ∀ m ∈ legal, ∃ s2, state.apply_move m = some s2 ∧
      s2.is_side_in_check state.turn = some false := by
  have hfl : filter_legal_moves state pseudo = some legal := by
    have hgen : generate_legal_moves state =
        match generate_pseudo_legal_moves state with
        | none => none
        | some moves => filter_legal_moves state moves := rfl
    rw [hgen, hp] at hl
    exact hl
  have heq := filter_legal_moves_eq_spec state pseudo legal hfl
  refine ⟨heq, ?_⟩
  intro m hm
  rw [heq] at hm
  simp only [legalSpecFilter] at hm
  obtain ⟨hmem, hpred⟩ := List.mem_filter.mp hm
  cases hap : state.apply_move m with
  | none =>
    simp only [hap] at hpred
    exact Bool.noConfusion hpred
  | some s2 =>
    simp only [hap] at hpred
    cases hchk : s2.is_side_in_check state.turn with
    | none =>
      simp only [hchk] at hpred
      exact Bool.noConfusion hpred
    | some c =>
      simp only [hchk] at hpred
      have hc : c = false := by
        cases c
        · rfl
        · exact Bool.noConfusion hpred
      refine ⟨s2, rfl, ?_⟩
      rw [hchk, hc]

/-- Witness for C3 on the two-kings position: the five legal king moves from
e1 are exactly the spec filter of the pseudo-legal list, and each one's
successor leaves White out of check. -/
theorem c3_legal_filter_witness :
    ([Move.new ⟨4⟩ ⟨3⟩, Move.new ⟨4⟩ ⟨11⟩, Move.new ⟨4⟩ ⟨12⟩,
      Move.new ⟨4⟩ ⟨5⟩, Move.new ⟨4⟩ ⟨13⟩] : List Move) =
      legalSpecFilter kingsOnly
        [Move.new ⟨4⟩ ⟨3⟩, Move.new ⟨4⟩ ⟨11⟩, Move.new ⟨4⟩ ⟨12⟩,
         Move.new ⟨4⟩ ⟨5⟩, Move.new ⟨4⟩ ⟨13⟩] ∧
    ∀ m ∈ ([Move.new ⟨4⟩ ⟨3⟩, Move.new ⟨4⟩ ⟨11⟩, Move.new ⟨4⟩ ⟨12⟩,
      Move.new ⟨4⟩ ⟨5⟩, Move.new ⟨4⟩ ⟨13⟩] : List Move),
      ∃ s2, kingsOnly.apply_move m = some s2 ∧
        s2.is_side_in_check kingsOnly.turn = some false :=
  c3_legal_filter_characterization kingsOnly
    [Move.new ⟨4⟩ ⟨3⟩, Move.new ⟨4⟩ ⟨11⟩, Move.new ⟨4⟩ ⟨12⟩,
     Move.new ⟨4⟩ ⟨5⟩, Move.new ⟨4⟩ ⟨13⟩]
    [Move.new ⟨4⟩ ⟨3⟩, Move.new ⟨4⟩ ⟨11⟩, Move.new ⟨4⟩ ⟨12⟩,
     Move.new ⟨4⟩ ⟨5⟩, Move.new ⟨4⟩ ⟨13⟩] rfl rfl

theorem tbLand (x y i : Nat) : (Nat.land x y).testBit i = (x.testBit i && y.testBit i) :=
  Nat.testBit_and x y i

theorem tbLor (x y i : Nat) : (Nat.lor x y).testBit i = (x.testBit i || y.testBit i) :=
  Nat.testBit_or x y i

theorem tbXor (x y i : Nat) : (Nat.xor x y).testBit i = (x.testBit i ^^ y.testBit i) :=
  Nat.testBit_xor x y i

theorem tbShl (x n i : Nat) : (Nat.shiftLeft x n).testBit i =
    (decide (i ≥ n) && x.testBit (i - n)) := Nat.testBit_shiftLeft x

theorem tbShr (x n i : Nat) : (Nat.shiftRight x n).testBit i = x.testBit (n + i) :=
  Nat.testBit_shiftRight x

theorem mulDef (a b : Nat) : Nat.mul a b = a * b := rfl

theorem tbBoardOnes (m : Nat) : boardOnes.testBit m = decide (m < 256) := by
  have h : boardOnes = 2 ^ 256 - 1 := by decide
  rw [h, Nat.testBit_two_pow_sub_one]

theorem tbFifteen (m : Nat) : (15 : Nat).testBit m = decide (m < 4) := by
  have h : (15 : Nat) = 2 ^ 4 - 1 := by decide
  rw [h, Nat.testBit_two_pow_sub_one]

theorem decodePiece_pieceCode (v : Option Piece) : decodePiece (pieceCode v) = v := by
  rcases v with _ | ⟨pt, c⟩
  · rfl
  · cases pt <;> cases c <;> rfl

theorem pieceCode_lt (v : Option Piece) : pieceCode v < 16 := by
  rcases v with _ | ⟨pt, c⟩
  · decide
  · cases pt <;> cases c <;> decide

theorem sixteen_le_pow {t : Nat} (h : 4 ≤ t) : 16 ≤ 2 ^ t :=
  le_trans (by norm_num : (16 : Nat) ≤ 2 ^ 4) (Nat.pow_le_pow_right (by norm_num) h)

theorem nibble_write (x s j code : Nat) (hcode : code < 16) (hs : s < 64)
    (hj : j < 64) :
    Nat.land (Nat.shiftRight
      (Nat.lor (Nat.land x (Nat.xor boardOnes (Nat.shiftLeft 15 (Nat.mul 4 s))))
        (Nat.shiftLeft code (Nat.mul 4 s))) (Nat.mul 4 j)) 15 =
      if j = s then code else Nat.land (Nat.shiftRight x (Nat.mul 4 j)) 15 := by
  by_cases hjs : j = s
  · subst hjs
    rw [if_pos rfl]
    apply Nat.eq_of_testBit_eq
    intro t
    simp only [tbLand, tbShr, tbLor, tbXor, tbShl, tbBoardOnes, tbFifteen, mulDef]
    by_cases htlt : t < 4
    · rw [decide_eq_true (show 4 * j + t < 256 by omega),
        decide_eq_true (show 4 * j + t ≥ 4 * j by omega),
        show 4 * j + t - 4 * j = t from by omega,
        decide_eq_true htlt]
      cases hbit : code.testBit t <;> cases x.testBit (4 * j + t) <;> rfl
    · rw [decide_eq_false htlt,
        Nat.testBit_lt_two_pow (show code < 2 ^ t from
          lt_of_lt_of_le hcode (sixteen_le_pow (by omega)))]
      simp
  · rw [if_neg hjs]
    apply Nat.eq_of_testBit_eq
    intro t
    simp only [tbLand, tbShr, tbLor, tbXor, tbShl, tbBoardOnes, tbFifteen, mulDef]
    by_cases htlt : t < 4
    · have hdisj : ¬(4 * j + t ≥ 4 * s) ∨ ¬(4 * j + t - 4 * s < 4) := by omega
      rw [decide_eq_true (show 4 * j + t < 256 by omega), decide_eq_true htlt]
      rcases hdisj with hlt | hge
      · rw [decide_eq_false hlt]
        simp
      · rw [decide_eq_false hge]
        rcases Nat.lt_or_ge (4 * j + t) (4 * s) with hcase | hcase
        · rw [decide_eq_false (show ¬(4 * j + t ≥ 4 * s) by omega)]
          simp
        · rw [decide_eq_true (show 4 * j + t ≥ 4 * s from hcase),
            Nat.testBit_lt_two_pow (show code < 2 ^ (4 * j + t - 4 * s) from
              lt_of_lt_of_le hcode (sixteen_le_pow (by omega)))]
          simp
    · rw [decide_eq_false htlt]
      simp

theorem piece_at_set_piece (b : Board) (sq : Square) (j : Nat) (v : Option Piece)
    (hs : sq.val < 64) (hj : j < 64) :
    (b.set_piece sq v).piece_at ⟨j⟩ = if j = sq.val then v else b.piece_at ⟨j⟩ := by
  show decodePiece
      (Nat.land (Nat.shiftRight
        (Nat.lor (Nat.land b.squares
            (Nat.xor boardOnes (Nat.shiftLeft 15 (Nat.mul 4 sq.val))))
          (Nat.shiftLeft (pieceCode v) (Nat.mul 4 sq.val))) (Nat.mul 4 j)) 15) = _
  rw [nibble_write b.squares sq.val j (pieceCode v) (pieceCode_lt v) hs hj]
  by_cases hjs : j = sq.val
  · rw [if_pos hjs, if_pos hjs, decodePiece_pieceCode]
  · rw [if_neg hjs, if_neg hjs]
    rfl

theorem bbShape_empty : bbShape BitBoardSet.empty :=
  ⟨0, 0, 0, 0, 0, 0, 0, 0, 0, 0, 0, 0, 0, 0, rfl, rfl⟩

theorem bbShape_set (bs : BitBoardSet) (sq : Square) (p : Piece) (h : bbShape bs) :
    bbShape (bs.set_piece sq p) := by
  obtain ⟨p0, p1, p2, p3, p4, p5, q0, q1, q2, q3, q4, q5, c0, c1, hp, hc⟩ := h
  obtain ⟨pt, c⟩ := p
  obtain ⟨pieces, co, ao⟩ := bs
  cases hp
  cases hc
  cases c <;> cases pt <;>
    exact ⟨_, _, _, _, _, _, _, _, _, _, _, _, _, _, rfl, rfl⟩

theorem bbShape_clear (bs : BitBoardSet) (sq : Square) (h : bbShape bs) :
    bbShape (bs.clear_square sq) := by
  obtain ⟨p0, p1, p2, p3, p4, p5, q0, q1, q2, q3, q4, q5, c0, c1, hp, hc⟩ := h
  obtain ⟨pieces, co, ao⟩ := bs
  cases hp
  cases hc
  exact ⟨_, _, _, _, _, _, _, _, _, _, _, _, _, _, rfl, rfl⟩

theorem pieces_bb_set (bs : BitBoardSet) (h : bbShape bs) (sq : Square) (p : Piece)
    (pt : PieceType) (c : Color) :
    (bs.set_piece sq p).pieces_bb pt c =
      if p.color = c ∧ p.piece_type = pt then
        (bs.pieces_bb pt c).union (BitBoard.from_square sq)
      else bs.pieces_bb pt c := by
  obtain ⟨p0, p1, p2, p3, p4, p5, q0, q1, q2, q3, q4, q5, c0, c1, hp, hc⟩ := h
  obtain ⟨pc, cc⟩ := p
  obtain ⟨pieces, co, ao⟩ := bs
  cases hp
  cases hc
  cases cc <;> cases pc <;> cases c <;> cases pt <;> rfl

theorem co_bb_set (bs : BitBoardSet) (h : bbShape bs) (sq : Square) (p : Piece)
    (c : Color) :
    (bs.set_piece sq p).color_occupancy_bb c =
      if p.color = c then
        (bs.color_occupancy_bb c).union (BitBoard.from_square sq)
      else bs.color_occupancy_bb c := by
  obtain ⟨p0, p1, p2, p3, p4, p5, q0, q1, q2, q3, q4, q5, c0, c1, hp, hc⟩ := h
  obtain ⟨pc, cc⟩ := p
  obtain ⟨pieces, co, ao⟩ := bs
  cases hp
  cases hc
  cases cc <;> cases c <;> rfl

theorem all_set (bs : BitBoardSet) (sq : Square) (p : Piece) :
    (bs.set_piece sq p).all_occupancy =
      bs.all_occupancy.union (BitBoard.from_square sq) := rfl

theorem pieces_bb_clear (bs : BitBoardSet) (h : bbShape bs) (sq : Square)
    (pt : PieceType) (c : Color) :
    (bs.clear_square sq).pieces_bb pt c =
      (bs.pieces_bb pt c).intersection (BitBoard.from_square sq).complement := by
  obtain ⟨p0, p1, p2, p3, p4, p5, q0, q1, q2, q3, q4, q5, c0, c1, hp, hc⟩ := h
  obtain ⟨pieces, co, ao⟩ := bs
  cases hp
  cases hc
  cases c <;> cases pt <;> rfl

theorem co_bb_clear (bs : BitBoardSet) (h : bbShape bs) (sq : Square) (c : Color) :
    (bs.clear_square sq).color_occupancy_bb c =
      (bs.color_occupancy_bb c).intersection (BitBoard.from_square sq).complement := by
  obtain ⟨p0, p1, p2, p3, p4, p5, q0, q1, q2, q3, q4, q5, c0, c1, hp, hc⟩ := h
  obtain ⟨pieces, co, ao⟩ := bs
  cases hp
  cases hc
  cases c <;> rfl

theorem all_clear (bs : BitBoardSet) (sq : Square) :
    (bs.clear_square sq).all_occupancy =
      bs.all_occupancy.intersection (BitBoard.from_square sq).complement := rfl

theorem bbset_eq_of_projections (X Y : BitBoardSet) (hX : bbShape X) (hY : bbShape Y)
    (hp : ∀ pt c, X.pieces_bb pt c = Y.pieces_bb pt c)
    (hc : ∀ c, X.color_occupancy_bb c = Y.color_occupancy_bb c)
    (ha : X.all_occupancy = Y.all_occupancy) : X = Y := by
  obtain ⟨p0, p1, p2, p3, p4, p5, q0, q1, q2, q3, q4, q5, c0, c1, hXp, hXc⟩ := hX
  obtain ⟨r0, r1, r2, r3, r4, r5, s0, s1, s2, s3, s4, s5, d0, d1, hYp, hYc⟩ := hY
  obtain ⟨Xp, Xc, Xa⟩ := X
  obtain ⟨Yp, Yc, Ya⟩ := Y
  cases hXp
  cases hXc
  cases hYp
  cases hYc
  have e0 : p0 = r0 := hp PieceType.Pawn Color.White
  have e1 : p1 = r1 := hp PieceType.Knight Color.White
  have e2 : p2 = r2 := hp PieceType.Bishop Color.White
  have e3 : p3 = r3 := hp PieceType.Rook Color.White
  have e4 : p4 = r4 := hp PieceType.Queen Color.White
  have e5 : p5 = r5 := hp PieceType.King Color.White
  have f0 : q0 = s0 := hp PieceType.Pawn Color.Black
  have f1 : q1 = s1 := hp PieceType.Knight Color.Black
  have f2 : q2 = s2 := hp PieceType.Bishop Color.Black
  have f3 : q3 = s3 := hp PieceType.Rook Color.Black
  have f4 : q4 = s4 := hp PieceType.Queen Color.Black
  have f5 : q5 = s5 := hp PieceType.King Color.Black
  have g0 : c0 = d0 := hc Color.White
  have g1 : c1 = d1 := hc Color.Black
  have gaa : Xa = Ya := ha
  rw [e0, e1, e2, e3, e4, e5, f0, f1, f2, f3, f4, f5, g0, g1, gaa]

theorem tbUnion (x y : BitBoard) (k : Nat) :
    (BitBoard.union x y).testBit k = (x.testBit k || y.testBit k) :=
  Nat.testBit_or x y k

theorem tbInter (x y : BitBoard) (k : Nat) :
    (BitBoard.intersection x y).testBit k = (x.testBit k && y.testBit k) :=
  Nat.testBit_and x y k

theorem tbFromSquare (sq : Square) (k : Nat) :
    (BitBoard.from_square sq).testBit k = decide (sq.val = k) := by
  show (Nat.shiftLeft 1 sq.val).testBit k = decide (sq.val = k)
  rw [show Nat.shiftLeft 1 sq.val = 2 ^ sq.val from Nat.one_shiftLeft sq.val,
    Nat.testBit_two_pow]

theorem tbU64 (k : Nat) : u64Mask.testBit k = decide (k < 64) := by
  have h : u64Mask = 2 ^ 64 - 1 := by decide
  rw [h, Nat.testBit_two_pow_sub_one]

theorem tbComplement (sq : Square) (k : Nat) :
    ((BitBoard.from_square sq).complement).testBit k =
      (decide (sq.val = k) ^^ decide (k < 64)) := by
  show (Nat.xor (BitBoard.from_square sq) u64Mask).testBit k = _
  rw [tbXor, tbU64, tbFromSquare]

theorem empty_pieces_bb (pt : PieceType) (c : Color) :
    BitBoardSet.empty.pieces_bb pt c = 0 := by
  cases pt <;> cases c <;> rfl

theorem empty_co_bb (c : Color) : BitBoardSet.empty.color_occupancy_bb c = 0 := by
  cases c <;> rfl

theorem from_index_lt {i : Nat} (h : i < 64) : Square.from_index i = some ⟨i⟩ := by
  simp only [Square.from_index]
  rw [show Nat.blt i 64 = true from by rw [Nat.blt_eq]; exact h]
  rfl

theorem from_index_ge {i : Nat} (h : 64 ≤ i) : Square.from_index i = none := by
  simp only [Square.from_index]
  rw [show Nat.blt i 64 = false from by
    rw [Bool.eq_false_iff]
    intro hc
    rw [Nat.blt_eq] at hc
    omega]
  rfl

theorem bbShape_fromBoardAux (board : Board) :
    ∀ (fuel i : Nat) (acc : BitBoardSet), bbShape acc →
      bbShape (BitBoardSet.fromBoardAux board fuel i acc) := by
  intro fuel
  induction fuel with
  | zero =>
    intro i acc hsh
    exact hsh
  | succ fuel ih =>
    intro i acc hsh
    have hstep : BitBoardSet.fromBoardAux board (fuel + 1) i acc =
        BitBoardSet.fromBoardAux board fuel (Nat.add i 1)
          (match Square.from_index i with
           | some square =>
             match board.piece_at square with
             | some piece => acc.set_piece square piece
             | none => acc
           | none => acc) := rfl
    rw [hstep]
    rcases hfi : Square.from_index i with _ | sq
    · simp only [hfi]
      exact ih _ _ hsh
    · simp only [hfi]
      rcases hpa : board.piece_at sq with _ | p
      · simp only [hpa]
        exact ih _ _ hsh
      · simp only [hpa]
        exact ih _ _ (bbShape_set acc sq p hsh)

theorem bbShape_from_board (board : Board) : bbShape (BitBoardSet.from_board board) :=
  bbShape_fromBoardAux board 64 0 BitBoardSet.empty bbShape_empty

theorem fromBoardAux_pieces_testBit (board : Board) (pt : PieceType) (c : Color) :
    ∀ (fuel i : Nat) (acc : BitBoardSet), bbShape acc → ∀ k,
      Nat.testBit ((BitBoardSet.fromBoardAux board fuel i acc).pieces_bb pt c) k =
        (Nat.testBit (acc.pieces_bb pt c) k ||
          decide (i ≤ k ∧ k < i + fuel ∧ k < 64 ∧
            board.piece_at ⟨k⟩ = some ⟨pt, c⟩)) := by
  intro fuel
  induction fuel with
  | zero =>
    intro i acc hsh k
    rw [decide_eq_false (show ¬(i ≤ k ∧ k < i + 0 ∧ k < 64 ∧
        board.piece_at ⟨k⟩ = some ⟨pt, c⟩) from fun ⟨h1, h2, _⟩ => by omega)]
    simp only [Bool.or_false]
    rfl
  | succ fuel ih =>
    intro i acc hsh k
    have hstep : BitBoardSet.fromBoardAux board (fuel + 1) i acc =
        BitBoardSet.fromBoardAux board fuel (Nat.add i 1)
          (match Square.from_index i with
           | some square =>
             match board.piece_at square with
             | some piece => acc.set_piece square piece
             | none => acc
           | none => acc) := rfl
    rw [hstep]
    by_cases hi64 : i < 64
    · rw [from_index_lt hi64]
      rcases hpa : board.piece_at ⟨i⟩ with _ | p
      · simp only [hpa]
        rw [ih (Nat.add i 1) acc hsh k]
        congr 1
        rw [decide_eq_decide]
        constructor
        · rintro ⟨h1, h2, h3, h4⟩
          have : Nat.add i 1 = i + 1 := rfl
          refine ⟨by omega, by omega, h3, h4⟩
        · rintro ⟨h1, h2, h3, h4⟩
          have hne : k ≠ i := by
            intro hk
            rw [hk, hpa] at h4
            exact Option.noConfusion h4
          have : Nat.add i 1 = i + 1 := rfl
          refine ⟨by omega, by omega, h3, h4⟩
      · simp only [hpa]
        rw [ih (Nat.add i 1) (acc.set_piece ⟨i⟩ p) (bbShape_set acc ⟨i⟩ p hsh) k,
          pieces_bb_set acc hsh ⟨i⟩ p pt c]
        by_cases hm : p.color = c ∧ p.piece_type = pt
        · rw [if_pos hm, tbUnion, tbFromSquare]
          have hpeq : p = ⟨pt, c⟩ := by
            obtain ⟨pp, pc⟩ := p
            obtain ⟨hc1, hc2⟩ := hm
            rw [show pp = pt from hc2, show pc = c from hc1]
          rw [Bool.or_assoc]
          congr 1
          rw [← Bool.decide_or, decide_eq_decide]
          have hadd : Nat.add i 1 = i + 1 := rfl
          constructor
          · rintro (hik | ⟨h1, h2, h3, h4⟩)
            · have hk : k = i := Eq.symm hik
              rw [hk, hpa, hpeq]
              refine ⟨by omega, by omega, by omega, rfl⟩
            · refine ⟨by omega, by omega, h3, h4⟩
          · rintro ⟨h1, h2, h3, h4⟩
            by_cases hk : k = i
            · left
              exact hk.symm
            · right
              refine ⟨by omega, by omega, h3, h4⟩
        · rw [if_neg hm]
          congr 1
          rw [decide_eq_decide]
          have hadd : Nat.add i 1 = i + 1 := rfl
          constructor
          · rintro ⟨h1, h2, h3, h4⟩
            refine ⟨by omega, by omega, h3, h4⟩
          · rintro ⟨h1, h2, h3, h4⟩
            have hne : k ≠ i := by
              intro hk
              rw [hk, hpa] at h4
              have hp2 : p = ⟨pt, c⟩ := Option.some.inj h4
              exact hm ⟨by rw [hp2], by rw [hp2]⟩
            refine ⟨by omega, by omega, h3, h4⟩
    · rw [from_index_ge (by omega)]
      rw [ih (Nat.add i 1) acc hsh k]
      congr 1
      rw [decide_eq_decide]
      have : Nat.add i 1 = i + 1 := rfl
      constructor
      · rintro ⟨h1, h2, h3, h4⟩
        refine ⟨by omega, by omega, h3, h4⟩
      · rintro ⟨h1, h2, h3, h4⟩
        refine ⟨by omega, by omega, h3, h4⟩

theorem fromBoardAux_co_testBit (board : Board) (c : Color) :
    ∀ (fuel i : Nat) (acc : BitBoardSet), bbShape acc → ∀ k,
      Nat.testBit ((BitBoardSet.fromBoardAux board fuel i acc).color_occupancy_bb c) k =
        (Nat.testBit (acc.color_occupancy_bb c) k ||
          decide (i ≤ k ∧ k < i + fuel ∧ k < 64 ∧
            (board.piece_at ⟨k⟩).map Piece.color = some c)) := by
  intro fuel
  induction fuel with
  | zero =>
    intro i acc hsh k
    rw [decide_eq_false (show ¬(i ≤ k ∧ k < i + 0 ∧ k < 64 ∧
        (board.piece_at ⟨k⟩).map Piece.color = some c) from
          fun ⟨h1, h2, _⟩ => by omega)]
    simp only [Bool.or_false]
    rfl
  | succ fuel ih =>
    intro i acc hsh k
    have hstep : BitBoardSet.fromBoardAux board (fuel + 1) i acc =
        BitBoardSet.fromBoardAux board fuel (Nat.add i 1)
          (match Square.from_index i with
           | some square =>
             match board.piece_at square with
             | some piece => acc.set_piece square piece
             | none => acc
           | none => acc) := rfl
    rw [hstep]
    by_cases hi64 : i < 64
    · rw [from_index_lt hi64]
      rcases hpa : board.piece_at ⟨i⟩ with _ | p
      · simp only [hpa]
        rw [ih (Nat.add i 1) acc hsh k]
        congr 1
        rw [decide_eq_decide]
        have hadd : Nat.add i 1 = i + 1 := rfl
        constructor
        · rintro ⟨h1, h2, h3, h4⟩
          refine ⟨by omega, by omega, h3, h4⟩
        · rintro ⟨h1, h2, h3, h4⟩
          have hne : k ≠ i := by
            intro hk
            rw [hk, hpa] at h4
            exact Option.noConfusion h4
          refine ⟨by omega, by omega, h3, h4⟩
      · simp only [hpa]
        rw [ih (Nat.add i 1) (acc.set_piece ⟨i⟩ p) (bbShape_set acc ⟨i⟩ p hsh) k,
          co_bb_set acc hsh ⟨i⟩ p c]
        by_cases hm : p.color = c
        · rw [if_pos hm, tbUnion, tbFromSquare]
          rw [Bool.or_assoc]
          congr 1
          rw [← Bool.decide_or, decide_eq_decide]
          have hadd : Nat.add i 1 = i + 1 := rfl
          constructor
          · rintro (hik | ⟨h1, h2, h3, h4⟩)
            · have hk : k = i := Eq.symm hik
              rw [hk, hpa]
              refine ⟨by omega, by omega, by omega, ?_⟩
              show some p.color = some c
              rw [hm]
            · refine ⟨by omega, by omega, h3, h4⟩
          · rintro ⟨h1, h2, h3, h4⟩
            by_cases hk : k = i
            · left
              exact hk.symm
            · right
              refine ⟨by omega, by omega, h3, h4⟩
        · rw [if_neg hm]
          congr 1
          rw [decide_eq_decide]
          have hadd : Nat.add i 1 = i + 1 := rfl
          constructor
          · rintro ⟨h1, h2, h3, h4⟩
            refine ⟨by omega, by omega, h3, h4⟩
          · rintro ⟨h1, h2, h3, h4⟩
            have hne : k ≠ i := by
              intro hk
              rw [hk, hpa] at h4
              have : p.color = c := Option.some.inj h4
              exact hm this
            refine ⟨by omega, by omega, h3, h4⟩
    · rw [from_index_ge (by omega)]
      rw [ih (Nat.add i 1) acc hsh k]
      congr 1
      rw [decide_eq_decide]
      have hadd : Nat.add i 1 = i + 1 := rfl
      constructor
      · rintro ⟨h1, h2, h3, h4⟩
        refine ⟨by omega, by omega, h3, h4⟩
      · rintro ⟨h1, h2, h3, h4⟩
        refine ⟨by omega, by omega, h3, h4⟩

theorem fromBoardAux_all_testBit (board : Board) :
    ∀ (fuel i : Nat) (acc : BitBoardSet), ∀ k,
      Nat.testBit ((BitBoardSet.fromBoardAux board fuel i acc).all_occupancy) k =
        (Nat.testBit acc.all_occupancy k ||
          decide (i ≤ k ∧ k < i + fuel ∧ k < 64 ∧ board.piece_at ⟨k⟩ ≠ none)) := by
  intro fuel
  induction fuel with
  | zero =>
    intro i acc k
    rw [decide_eq_false (show ¬(i ≤ k ∧ k < i + 0 ∧ k < 64 ∧
        board.piece_at ⟨k⟩ ≠ none) from fun ⟨h1, h2, _⟩ => by omega)]
    simp only [Bool.or_false]
    rfl
  | succ fuel ih =>
    intro i acc k
    have hstep : BitBoardSet.fromBoardAux board (fuel + 1) i acc =
        BitBoardSet.fromBoardAux board fuel (Nat.add i 1)
          (match Square.from_index i with
           | some square =>
             match board.piece_at square with
             | some piece => acc.set_piece square piece
             | none => acc
           | none => acc) := rfl
    rw [hstep]
    by_cases hi64 : i < 64
    · rw [from_index_lt hi64]
      rcases hpa : board.piece_at ⟨i⟩ with _ | p
      · simp only [hpa]
        rw [ih (Nat.add i 1) acc k]
        congr 1
        rw [decide_eq_decide]
        have hadd : Nat.add i 1 = i + 1 := rfl
        constructor
        · rintro ⟨h1, h2, h3, h4⟩
          refine ⟨by omega, by omega, h3, h4⟩
        · rintro ⟨h1, h2, h3, h4⟩
          have hne : k ≠ i := by
            intro hk
            rw [hk, hpa] at h4
            exact h4 rfl
          refine ⟨by omega, by omega, h3, h4⟩
      · simp only [hpa]
        rw [ih (Nat.add i 1) (acc.set_piece ⟨i⟩ p) k, all_set, tbUnion, tbFromSquare]
        rw [Bool.or_assoc]
        congr 1
        rw [← Bool.decide_or, decide_eq_decide]
        have hadd : Nat.add i 1 = i + 1 := rfl
        constructor
        · rintro (hik | ⟨h1, h2, h3, h4⟩)
          · have hk : k = i := Eq.symm hik
            rw [hk, hpa]
            refine ⟨by omega, by omega, by omega, ?_⟩
            exact Option.noConfusion
          · refine ⟨by omega, by omega, h3, h4⟩
        · rintro ⟨h1, h2, h3, h4⟩
          by_cases hk : k = i
          · left
            exact hk.symm
          · right
            refine ⟨by omega, by omega, h3, h4⟩
    · rw [from_index_ge (by omega)]
      rw [ih (Nat.add i 1) acc k]
      congr 1
      rw [decide_eq_decide]
      have hadd : Nat.add i 1 = i + 1 := rfl
      constructor
      · rintro ⟨h1, h2, h3, h4⟩
        refine ⟨by omega, by omega, h3, h4⟩
      · rintro ⟨h1, h2, h3, h4⟩
        refine ⟨by omega, by omega, h3, h4⟩

theorem from_board_pieces_testBit (board : Board) (pt : PieceType) (c : Color)
    (k : Nat) :
    ((BitBoardSet.from_board board).pieces_bb pt c).testBit k =
      decide (k < 64 ∧ board.piece_at ⟨k⟩ = some ⟨pt, c⟩) := by
  have h := fromBoardAux_pieces_testBit board pt c 64 0 BitBoardSet.empty
    bbShape_empty k
  rw [show BitBoardSet.from_board board =
      BitBoardSet.fromBoardAux board 64 0 BitBoardSet.empty from rfl, h,
    empty_pieces_bb, Nat.zero_testBit, Bool.false_or, decide_eq_decide]
  constructor
  · rintro ⟨h1, h2, h3, h4⟩
    exact ⟨h3, h4⟩
  · rintro ⟨h1, h2⟩
    exact ⟨by omega, by omega, h1, h2⟩

theorem from_board_co_testBit (board : Board) (c : Color) (k : Nat) :
    ((BitBoardSet.from_board board).color_occupancy_bb c).testBit k =
      decide (k < 64 ∧ (board.piece_at ⟨k⟩).map Piece.color = some c) := by
  have h := fromBoardAux_co_testBit board c 64 0 BitBoardSet.empty bbShape_empty k
  rw [show BitBoardSet.from_board board =
      BitBoardSet.fromBoardAux board 64 0 BitBoardSet.empty from rfl, h,
    empty_co_bb, Nat.zero_testBit, Bool.false_or, decide_eq_decide]
  constructor
  · rintro ⟨h1, h2, h3, h4⟩
    exact ⟨h3, h4⟩
  · rintro ⟨h1, h2⟩
    exact ⟨by omega, by omega, h1, h2⟩

theorem from_board_all_testBit (board : Board) (k : Nat) :
    ((BitBoardSet.from_board board).all_occupancy).testBit k =
      decide (k < 64 ∧ board.piece_at ⟨k⟩ ≠ none) := by
  have h := fromBoardAux_all_testBit board 64 0 BitBoardSet.empty k
  rw [show BitBoardSet.from_board board =
      BitBoardSet.fromBoardAux board 64 0 BitBoardSet.empty from rfl, h,
    show BitBoardSet.empty.all_occupancy = 0 from rfl, Nat.zero_testBit,
    Bool.false_or, decide_eq_decide]
  constructor
  · rintro ⟨h1, h2, h3, h4⟩
    exact ⟨h3, h4⟩
  · rintro ⟨h1, h2⟩
    exact ⟨by omega, by omega, h1, h2⟩

theorem from_board_move_piece (b : Board) (mfrom mto : Square) (piece : Piece)
    (hf : mfrom.val < 64) (ht : mto.val < 64)
    (hp : b.piece_at mfrom = some piece) :
    BitBoardSet.move_piece (BitBoardSet.from_board b) mfrom mto piece =
      BitBoardSet.from_board (b.move_piece mfrom mto).1 := by
  have hsh0 := bbShape_from_board b
  have hsh1 := bbShape_clear _ mfrom hsh0
  have hsh2 := bbShape_clear _ mto hsh1
  have hmv : BitBoardSet.move_piece (BitBoardSet.from_board b) mfrom mto piece =
      (((BitBoardSet.from_board b).clear_square mfrom).clear_square mto).set_piece
        mto piece := rfl
  have hpat : ∀ j, j < 64 → (b.move_piece mfrom mto).1.piece_at ⟨j⟩ =
      if j = mto.val then some piece
      else if j = mfrom.val then none
      else b.piece_at ⟨j⟩ := by
    intro j hj
    have h1 : (b.move_piece mfrom mto).1 =
        (b.set_piece mfrom none).set_piece mto (b.piece_at mfrom) := rfl
    rw [h1, hp, piece_at_set_piece (b.set_piece mfrom none) mto j (some piece) ht hj]
    by_cases hjt : j = mto.val
    · rw [if_pos hjt, if_pos hjt]
    · rw [if_neg hjt, if_neg hjt, piece_at_set_piece b mfrom j none hf hj]
  rw [hmv]
  apply bbset_eq_of_projections _ _ (bbShape_set _ _ _ hsh2)
    (bbShape_from_board _)
  · intro pt c
    apply Nat.eq_of_testBit_eq
    intro k
    rw [pieces_bb_set _ hsh2 mto piece pt c]
    by_cases hk64 : k < 64
    · rw [from_board_pieces_testBit (b.move_piece mfrom mto).1 pt c k, hpat k hk64]
      by_cases hm : piece.color = c ∧ piece.piece_type = pt
      · have hpeq : piece = ⟨pt, c⟩ := by
          obtain ⟨pp, pc⟩ := piece
          obtain ⟨hc1, hc2⟩ := hm
          rw [show pp = pt from hc2, show pc = c from hc1]
        rw [if_pos hm, tbUnion, tbFromSquare, pieces_bb_clear _ hsh1 mto pt c,
          tbInter, tbComplement, pieces_bb_clear _ hsh0 mfrom pt c, tbInter,
          tbComplement, from_board_pieces_testBit b pt c k]
        by_cases hkt : k = mto.val
        · rw [decide_eq_true (show mto.val = k from hkt.symm), Bool.or_true,
            if_pos hkt, decide_eq_true ⟨hk64, by rw [hpeq]⟩]
        · rw [decide_eq_false (show ¬mto.val = k from fun h => hkt h.symm),
            Bool.or_false, if_neg hkt, decide_eq_true hk64]
          by_cases hkf : k = mfrom.val
          · rw [if_pos hkf, decide_eq_true (show mfrom.val = k from hkf.symm),
              decide_eq_false (show ¬(k < 64 ∧ (none : Option Piece) =
                some ⟨pt, c⟩) from fun ⟨_, h⟩ => Option.noConfusion h)]
            simp
          · rw [if_neg hkf,
              decide_eq_false (show ¬mfrom.val = k from fun h => hkf h.symm)]
            simp
      · rw [if_neg hm, pieces_bb_clear _ hsh1 mto pt c, tbInter, tbComplement,
          pieces_bb_clear _ hsh0 mfrom pt c, tbInter, tbComplement,
          from_board_pieces_testBit b pt c k, decide_eq_true hk64]
        have hne : piece ≠ (⟨pt, c⟩ : Piece) := by
          intro hcon
          exact hm ⟨by rw [hcon], by rw [hcon]⟩
        by_cases hkt : k = mto.val
        · rw [if_pos hkt, decide_eq_true (show mto.val = k from hkt.symm),
            decide_eq_false (show ¬(k < 64 ∧ some piece = some (⟨pt, c⟩ : Piece))
              from fun ⟨_, h⟩ => hne (Option.some.inj h))]
          simp
        · rw [if_neg hkt,
            decide_eq_false (show ¬mto.val = k from fun h => hkt h.symm)]
          by_cases hkf : k = mfrom.val
          · rw [if_pos hkf, decide_eq_true (show mfrom.val = k from hkf.symm),
              decide_eq_false (show ¬(k < 64 ∧ (none : Option Piece) =
                some ⟨pt, c⟩) from fun ⟨_, h⟩ => Option.noConfusion h)]
            simp
          · rw [if_neg hkf,
              decide_eq_false (show ¬mfrom.val = k from fun h => hkf h.symm)]
            simp
    · have hallf : ∀ q : Option Piece, ¬(k < 64 ∧ q = some (⟨pt, c⟩ : Piece)) :=
        fun q ⟨h, _⟩ => hk64 h
      rw [from_board_pieces_testBit (b.move_piece mfrom mto).1 pt c k,
        decide_eq_false (hallf _)]
      by_cases hm : piece.color = c ∧ piece.piece_type = pt
      · rw [if_pos hm, tbUnion, tbFromSquare, pieces_bb_clear _ hsh1 mto pt c,
          tbInter, tbComplement, pieces_bb_clear _ hsh0 mfrom pt c, tbInter,
          tbComplement, from_board_pieces_testBit b pt c k,
          decide_eq_false (hallf _),
          decide_eq_false (show ¬mto.val = k from fun h => hk64 (h ▸ ht))]
        simp
      · rw [if_neg hm, pieces_bb_clear _ hsh1 mto pt c, tbInter, tbComplement,
          pieces_bb_clear _ hsh0 mfrom pt c, tbInter, tbComplement,
          from_board_pieces_testBit b pt c k, decide_eq_false (hallf _)]
        simp
  · intro c
    apply Nat.eq_of_testBit_eq
    intro k
    rw [co_bb_set _ hsh2 mto piece c]
    by_cases hk64 : k < 64
    · rw [from_board_co_testBit (b.move_piece mfrom mto).1 c k, hpat k hk64]
      by_cases hm : piece.color = c
      · rw [if_pos hm, tbUnion, tbFromSquare, co_bb_clear _ hsh1 mto c,
          tbInter, tbComplement, co_bb_clear _ hsh0 mfrom c, tbInter,
          tbComplement, from_board_co_testBit b c k]
        by_cases hkt : k = mto.val
        · rw [decide_eq_true (show mto.val = k from hkt.symm), Bool.or_true,
            if_pos hkt, decide_eq_true ⟨hk64, show some piece.color = some c from
              by rw [hm]⟩]
        · rw [decide_eq_false (show ¬mto.val = k from fun h => hkt h.symm),
            Bool.or_false, if_neg hkt, decide_eq_true hk64]
          by_cases hkf : k = mfrom.val
          · rw [if_pos hkf, decide_eq_true (show mfrom.val = k from hkf.symm),
              decide_eq_false (show ¬(k < 64 ∧ (none : Option Piece).map
                Piece.color = some c) from fun ⟨_, h⟩ => Option.noConfusion h)]
            simp
          · rw [if_neg hkf,
              decide_eq_false (show ¬mfrom.val = k from fun h => hkf h.symm)]
            simp
      · rw [if_neg hm, co_bb_clear _ hsh1 mto c, tbInter, tbComplement,
          co_bb_clear _ hsh0 mfrom c, tbInter, tbComplement,
          from_board_co_testBit b c k, decide_eq_true hk64]
        by_cases hkt : k = mto.val
        · rw [if_pos hkt, decide_eq_true (show mto.val = k from hkt.symm),
            decide_eq_false (show ¬(k < 64 ∧ (some piece).map Piece.color =
              some c) from fun ⟨_, h⟩ => hm (Option.some.inj h))]
          simp
        · rw [if_neg hkt,
            decide_eq_false (show ¬mto.val = k from fun h => hkt h.symm)]
          by_cases hkf : k = mfrom.val
          · rw [if_pos hkf, decide_eq_true (show mfrom.val = k from hkf.symm),
              decide_eq_false (show ¬(k < 64 ∧ (none : Option Piece).map
                Piece.color = some c) from fun ⟨_, h⟩ => Option.noConfusion h)]
            simp
          · rw [if_neg hkf,
              decide_eq_false (show ¬mfrom.val = k from fun h => hkf h.symm)]
            simp
    · have hallf : ∀ q : Option Piece, ¬(k < 64 ∧ q.map Piece.color = some c) :=
        fun q ⟨h, _⟩ => hk64 h
      rw [from_board_co_testBit (b.move_piece mfrom mto).1 c k,
        decide_eq_false (hallf _)]
      by_cases hm : piece.color = c
      · rw [if_pos hm, tbUnion, tbFromSquare, co_bb_clear _ hsh1 mto c,
          tbInter, tbComplement, co_bb_clear _ hsh0 mfrom c, tbInter,
          tbComplement, from_board_co_testBit b c k, decide_eq_false (hallf _),
          decide_eq_false (show ¬mto.val = k from fun h => hk64 (h ▸ ht))]
        simp
      · rw [if_neg hm, co_bb_clear _ hsh1 mto c, tbInter, tbComplement,
          co_bb_clear _ hsh0 mfrom c, tbInter, tbComplement,
          from_board_co_testBit b c k, decide_eq_false (hallf _)]
        simp
  · apply Nat.eq_of_testBit_eq
    intro k
    rw [all_set, tbUnion, tbFromSquare, all_clear, tbInter, tbComplement,
      all_clear, tbInter, tbComplement, from_board_all_testBit b k,
      from_board_all_testBit (b.move_piece mfrom mto).1 k]
    by_cases hk64 : k < 64
    · rw [hpat k hk64]
      by_cases hkt : k = mto.val
      · rw [decide_eq_true (show mto.val = k from hkt.symm), Bool.or_true,
          if_pos hkt,
          decide_eq_true ⟨hk64, show (some piece : Option Piece) ≠ none from
            Option.noConfusion⟩]
      · rw [decide_eq_false (show ¬mto.val = k from fun h => hkt h.symm),
          Bool.or_false, if_neg hkt, decide_eq_true hk64]
        by_cases hkf : k = mfrom.val
        · rw [if_pos hkf, decide_eq_true (show mfrom.val = k from hkf.symm),
            decide_eq_false (show ¬(k < 64 ∧ (none : Option Piece) ≠ none) from
              fun ⟨_, h⟩ => h rfl)]
          simp
        · rw [if_neg hkf,
            decide_eq_false (show ¬mfrom.val = k from fun h => hkf h.symm)]
          simp
    · have hallf : ∀ q : Option Piece, ¬(k < 64 ∧ q ≠ none) :=
        fun q ⟨h, _⟩ => hk64 h
      rw [decide_eq_false (hallf _), decide_eq_false (hallf _),
        decide_eq_false (show ¬mto.val = k from fun h => hk64 (h ▸ ht))]
      simp

theorem bs_move_piece_coherent (bst : BoardState) (mfrom mto : Square)
    (hcoh : bst.bitboards = BitBoardSet.from_board bst.array_board)
    (hf : mfrom.val < 64) (ht : mto.val < 64)
    (res : BoardState × Option Piece)
    (h : bst.move_piece mfrom mto = some res) :
    res.1.bitboards = BitBoardSet.from_board res.1.array_board := by
  have hstep : bst.move_piece mfrom mto =
      (match bst.piece_at mfrom with
       | none => none
       | some piece =>
         some (⟨(bst.array_board.move_piece mfrom mto).1,
           bst.bitboards.move_piece mfrom mto piece⟩,
           (bst.array_board.move_piece mfrom mto).2)) := rfl
  rw [hstep] at h
  rcases hpc : bst.piece_at mfrom with _ | piece
  · rw [hpc] at h
    exact Option.noConfusion h
  · rw [hpc] at h
    have h2 := Option.some.inj h
    rw [← h2]
    dsimp only
    rw [hcoh]
    exact from_board_move_piece bst.array_board mfrom mto piece hf ht hpc

theorem epSetState_board (st : GameState) (mv : Move) :
    (st.epSetState mv).board = st.board := by
  rw [GameState.epSetState]
  rcases Rank.new (Nat.div (Nat.add mv.from'.rank.index mv.to'.rank.index) 2) with _ | r
  · rfl
  · rfl

theorem cond_board_ep (c : Bool) (a : GameState) (mv : Move) :
    (bif c then a.epSetState mv else a).board = a.board := by
  cases c
  · rfl
  · exact epSetState_board a mv

theorem cond_board_hm (c : Bool) (a : GameState) (x y : Nat) :
    (bif c then { a with halfmove_clock := x }
     else { a with halfmove_clock := y }).board = a.board := by
  cases c <;> rfl

theorem cond_board_fm (c : Bool) (a : GameState) :
    (bif c then { a with fullmove_number := Nat.add a.fullmove_number 1 }
     else a).board = a.board := by
  cases c <;> rfl

theorem apply_castle_coherent (s : GameState) (mv : Move) (ns : GameState)
    (hcoh : s.board.bitboards = BitBoardSet.from_board s.board.array_board)
    (hf : mv.from'.val < 64) (ht : mv.to'.val < 64)
    (h : s.apply_castle mv = some ns) :
    ns.board.bitboards = BitBoardSet.from_board ns.board.array_board := by
  simp only [GameState.apply_castle] at h
  rcases hm1 : s.board.move_piece mv.from' mv.to' with _ | ⟨board1, cap1⟩
  · rw [hm1] at h
    exact Option.noConfusion h
  · rw [hm1] at h
    have hcoh1 : board1.bitboards = BitBoardSet.from_board board1.array_board :=
      bs_move_piece_coherent s.board mv.from' mv.to' hcoh hf ht (board1, cap1) hm1
    cases hbl : (mv.from'.file.index).blt (mv.to'.file.index)
    · simp only [hbl, cond_false] at h
      rcases hm2 : board1.move_piece (Square.new ⟨0⟩ mv.from'.rank)
          (Square.new ⟨3⟩ mv.from'.rank) with _ | ⟨board2, cap2⟩
      · rw [hm2] at h
        exact Option.noConfusion h
      · rw [hm2] at h
        have hrf : (Square.new ⟨0⟩ mv.from'.rank).val < 64 := by
          show mv.from'.val / 8 * 8 + 0 < 64
          omega
        have hrt : (Square.new ⟨3⟩ mv.from'.rank).val < 64 := by
          show mv.from'.val / 8 * 8 + 3 < 64
          omega
        have hcoh2 :=
          bs_move_piece_coherent board1 _ _ hcoh1 hrf hrt (board2, cap2) hm2
        have h2 := Option.some.inj h
        rw [← h2]
        exact hcoh2
    · simp only [hbl, cond_true] at h
      rcases hm2 : board1.move_piece (Square.new ⟨7⟩ mv.from'.rank)
          (Square.new ⟨5⟩ mv.from'.rank) with _ | ⟨board2, cap2⟩
      · rw [hm2] at h
        exact Option.noConfusion h
      · rw [hm2] at h
        have hrf : (Square.new ⟨7⟩ mv.from'.rank).val < 64 := by
          show mv.from'.val / 8 * 8 + 7 < 64
          omega
        have hrt : (Square.new ⟨5⟩ mv.from'.rank).val < 64 := by
          show mv.from'.val / 8 * 8 + 5 < 64
          omega
        have hcoh2 :=
          bs_move_piece_coherent board1 _ _ hcoh1 hrf hrt (board2, cap2) hm2
        have h2 := Option.some.inj h
        rw [← h2]
        exact hcoh2

/-- C4: a successful `apply_move` on a position whose bitboards equal
`BitBoardSet::from_board` of its mailbox, with both move squares on the
board, yields a position whose bitboards again equal
`BitBoardSet::from_board` of its mailbox. -/
theorem c4_apply_move_preserves_coherence (s : GameState) (mv : Move)
    (s2 : GameState)
    (hcoh : s.board.bitboards = BitBoardSet.from_board s.board.array_board)
    (hf : mv.from'.val < 64) (ht : mv.to'.val < 64)
    (happ : s.apply_move mv = some s2) :
    s2.board.bitboards = BitBoardSet.from_board s2.board.array_board := by
  simp only [GameState.apply_move] at happ
  rcases hpc : s.board.piece_at mv.from' with _ | piece
  · simp only [hpc] at happ
    exact Option.noConfusion happ
  · simp only [hpc] at happ
    cases hcc : piece.piece_type.beq PieceType.King &&
        (mv.from'.distance mv.to').beq 2
    · simp only [hcc, cond_false] at happ
      rcases hm1 : s.board.move_piece mv.from' mv.to' with _ | ⟨board1, cap1⟩
      · simp only [hm1] at happ
        exact Option.noConfusion happ
      · simp only [hm1] at happ
        have hcoh1 : board1.bitboards =
            BitBoardSet.from_board board1.array_board :=
          bs_move_piece_coherent s.board mv.from' mv.to' hcoh hf ht
            (board1, cap1) hm1
        cases hep : piece.piece_type.beq PieceType.Pawn &&
            (match s.en_passant with
             | some ep => mv.to'.beq ep
             | none => false) <;>
          simp only [hep, cond_true, cond_false] at happ <;>
        rcases hpr : mv.promotion with _ | promo <;>
          simp only [hpr] at happ <;>
        cases hdp : piece.piece_type.beq PieceType.Pawn &&
            (mv.from'.distance mv.to').beq 2 <;>
          simp only [hdp, cond_true, cond_false, GameState.epSetState] at happ <;>
        ( try (rcases hrk : Rank.new (Nat.div (Nat.add mv.from'.rank.index mv.to'.rank.index) 2) with _ | r <;> simp only [hrk] at happ) ) <;>
        cases hhm : piece.piece_type.beq PieceType.Pawn || cap1.isSome <;>
          simp only [hhm, cond_true, cond_false] at happ <;>
        cases htb : s.turn.beq Color.Black <;>
          simp only [htb, cond_true, cond_false] at happ <;>
        ( have h2 := Option.some.inj happ
          subst h2
          first
          | exact hcoh1
          | rfl )
    · simp only [hcc, cond_true] at happ
      rcases hac : s.apply_castle mv with _ | ns
      · simp only [hac] at happ
        exact Option.noConfusion happ
      · simp only [hac] at happ
        cases htb : s.turn.beq Color.Black <;>
          simp only [htb, cond_true, cond_false] at happ <;>
        ( have h2 := Option.some.inj happ
          subst h2
          exact apply_castle_coherent s mv ns hcoh hf ht hac )

/-- Witness for C4: the two-kings position is coherent, and so is its
successor after Ke1-d1, whose bitboards are exactly the recomputation from
its mailbox. -/
theorem c4_coherence_witness :
    (⟨⟨⟨21202164777340611954999570008915022189929806762507427497459274415511461888⟩,
        ⟨[[0, 0, 0, 0, 0, 8], [0, 0, 0, 0, 0, 1152921504606846976]],
         [8, 1152921504606846976], 1152921504606846984⟩⟩,
       Color.Black, CastlingRights.none, none, 1, 1⟩ : GameState).board.bitboards =
      BitBoardSet.from_board
        (⟨⟨⟨21202164777340611954999570008915022189929806762507427497459274415511461888⟩,
        ⟨[[0, 0, 0, 0, 0, 8], [0, 0, 0, 0, 0, 1152921504606846976]],
         [8, 1152921504606846976], 1152921504606846984⟩⟩,
       Color.Black, CastlingRights.none, none, 1, 1⟩ : GameState).board.array_board :=
  c4_apply_move_preserves_coherence kingsOnly (Move.new ⟨4⟩ ⟨3⟩)
    ⟨⟨⟨21202164777340611954999570008915022189929806762507427497459274415511461888⟩,
        ⟨[[0, 0, 0, 0, 0, 8], [0, 0, 0, 0, 0, 1152921504606846976]],
         [8, 1152921504606846976], 1152921504606846984⟩⟩,
       Color.Black, CastlingRights.none, none, 1, 1⟩
    rfl (by decide) (by decide) rfl


end Chess
